import Mathlib

/-!
Verification development for the korea-stock-mcp extractor core (index.js).

Strings are modelled as `List Char` (`Str`).  JavaScript numbers are
modelled exactly as pairs `m * 10 ^ e` of integers (`JsNum.fin m e`),
with the special values `inf`/`ninf` for the two infinities; `NaN` is
modelled as `Option.none` at the conversion boundary.  Field extraction,
the JSON envelope slicing, the cheerio-style selector walks and the
regex matches from the source are embedded as executable functions.
-/

abbrev Str := List Char

/-- JavaScript whitespace set: the characters matched by the regex class
`\s`, by `String.prototype.trim`, and trimmed by `Number(…)` string
conversion (WhiteSpace plus LineTerminator from the ECMAScript spec). -/
def jsWsChars : Str :=
  ['\t', '\n', '\u000B', '\u000C', '\r', ' ', '\u00A0', '\u1680',
   '\u2000', '\u2001', '\u2002', '\u2003', '\u2004', '\u2005', '\u2006',
   '\u2007', '\u2008', '\u2009', '\u200A', '\u2028', '\u2029', '\u202F',
   '\u205F', '\u3000', '\uFEFF']

def jsIsWhitespace (c : Char) : Bool := jsWsChars.contains c

/-- Model of `String.prototype.trim` (and of the implicit trimming done
by `Number(…)`): drop leading and trailing JS whitespace. -/
def jsTrim (s : Str) : Str :=
  ((s.dropWhile jsIsWhitespace).reverse.dropWhile jsIsWhitespace).reverse

/-- Model of `text.replace(/,/g, "")`. -/
def stripCommas (s : Str) : Str := s.filter (fun c => c ≠ ',')

/-- Model of `text.replace(/\s+/g, "")`: remove every JS whitespace char. -/
def stripWs (s : Str) : Str := s.filter (fun c => !jsIsWhitespace c)

def digitChars : Str := ['0', '1', '2', '3', '4', '5', '6', '7', '8', '9']

def isDigitChar (c : Char) : Bool := digitChars.contains c

def digitVal (c : Char) : Nat := c.toNat - 48

/-- Value of a big-endian digit string, as read by JS number conversion. -/
def natValOfDigits (ds : Str) : Nat := ds.foldl (fun a c => 10 * a + digitVal c) 0

def isHexDigitChar (c : Char) : Bool :=
  isDigitChar c || (('a' ≤ c && c ≤ 'f') || ('A' ≤ c && c ≤ 'F'))

def isOctDigitChar (c : Char) : Bool :=
  ['0', '1', '2', '3', '4', '5', '6', '7'].contains c

def isBinDigitChar (c : Char) : Bool := c = '0' || c = '1'

def hexVal (c : Char) : Nat :=
  if isDigitChar c then digitVal c
  else if 'a' ≤ c && c ≤ 'f' then c.toNat - 87
  else c.toNat - 55

def radixVal (r : Nat) (ds : Str) : Nat := ds.foldl (fun a c => r * a + hexVal c) 0

/-- A JavaScript number that is not NaN: either the exact value
`m * 10 ^ e`, or one of the two infinities.  (Double rounding is not
modelled; values are kept exact.) -/
inductive JsNum where
  | fin (m : Int) (e : Int)
  | inf
  | ninf
deriving DecidableEq

/-- Semantic value equality for `JsNum`: two finite numbers are the same
JS number when their exact values agree. -/
def jsNumEquiv : JsNum → JsNum → Prop
  | .fin m e, .fin m' e' => (m : ℚ) * 10 ^ e = (m' : ℚ) * 10 ^ e'
  | .inf, .inf => True
  | .ninf, .ninf => True
  | _, _ => False

/-- Exponent tail of the JS StrDecimalLiteral grammar: either nothing, or
`e`/`E` followed by an optionally signed nonempty digit run. -/
def parseExpTail : Str → Option Int
  | [] => some 0
  | c :: rest =>
    if c = 'e' || c = 'E' then
      match rest with
      | '+' :: ds => if ds ≠ [] && ds.all isDigitChar then some (natValOfDigits ds) else none
      | '-' :: ds => if ds ≠ [] && ds.all isDigitChar then some (-(natValOfDigits ds : Int)) else none
      | ds => if ds ≠ [] && ds.all isDigitChar then some (natValOfDigits ds) else none
    else none

/-- The unsigned decimal part of JS string-to-number conversion:
`digits [. digits] [exponent]`, at least one digit required.  The result
is the exact pair (mantissa, power-of-ten exponent). -/
def parseUnsignedDecimal (s : Str) : Option (Int × Int) :=
  let ip := s.takeWhile isDigitChar
  let r1 := s.dropWhile isDigitChar
  match r1 with
  | '.' :: t =>
    let fp := t.takeWhile isDigitChar
    let r2 := t.dropWhile isDigitChar
    if ip = [] && fp = [] then none
    else
      match parseExpTail r2 with
      | some ex =>
          some ((natValOfDigits ip * 10 ^ fp.length + natValOfDigits fp : Int),
                ex - fp.length)
      | none => none
  | _ =>
    if ip = [] then none
    else
      match parseExpTail r1 with
      | some ex => some ((natValOfDigits ip : Int), ex)
      | none => none

/-- Hex / octal / binary branches of JS string-to-number conversion
(`0x…`, `0o…`, `0b…`; no sign allowed on these forms). -/
def parseNonDecimal : Str → Option (Int × Int)
  | '0' :: c :: ds =>
    if c = 'x' || c = 'X' then
      if ds ≠ [] && ds.all isHexDigitChar then some ((radixVal 16 ds : Int), 0) else none
    else if c = 'o' || c = 'O' then
      if ds ≠ [] && ds.all isOctDigitChar then some ((radixVal 8 ds : Int), 0) else none
    else if c = 'b' || c = 'B' then
      if ds ≠ [] && ds.all isBinDigitChar then some ((radixVal 2 ds : Int), 0) else none
    else none
  | _ => none

def infinityChars : Str := ['I', 'n', 'f', 'i', 'n', 'i', 't', 'y']

/-- Signed tail of JS string-to-number conversion, after the optional
sign has been stripped. -/
def jsUnsigned (t : Str) (neg : Bool) : Option JsNum :=
  if t = infinityChars then some (if neg then .ninf else .inf)
  else
    match parseUnsignedDecimal t with
    | some (m, e) => some (.fin (if neg then -m else m) e)
    | none => none

/-- Model of JavaScript `Number(text)` on strings: trim, empty gives 0,
then the StrNumericLiteral grammar; `none` is NaN. -/
def jsToNumber (s0 : Str) : Option JsNum :=
  let s := jsTrim s0
  if s = [] then some (.fin 0 0)
  else
    match parseNonDecimal s with
    | some (m, e) => some (.fin m e)
    | none =>
      match s with
      | [] => none
      | c :: t =>
        if c = '+' then jsUnsigned t false
        else if c = '-' then jsUnsigned t true
        else jsUnsigned s false

/-- Model of `parseKoreanNumber` (index.js lines 36–41): falsy (empty)
text gives `null`; otherwise commas and whitespace are removed, the
result is converted with `Number`, and NaN gives `null`. -/
def parseKoreanNumber (text : Str) : Option JsNum :=
  if text = [] then none
  else jsToNumber (stripWs (stripCommas text))

example : parseKoreanNumber ("1,234".data) = some (.fin 1234 0) := by decide
example : parseKoreanNumber ("12.5".data) = some (.fin 125 (-1)) := by decide
example : parseKoreanNumber ("".data) = none := by decide
example : parseKoreanNumber ("abc".data) = none := by decide
example : parseKoreanNumber (" ".data) = some (.fin 0 0) := by decide
example : parseKoreanNumber ("-3,000".data) = some (.fin (-3000) 0) := by decide
example : parseKoreanNumber ("1e3".data) = some (.fin 1 3) := by decide

/-- Little-endian base-10 digits of a natural number, with explicit fuel
so that the definition is structural (hence kernel-computable). -/
def natDigitsRev : Nat → Nat → List Nat
  | 0, _ => []
  | f + 1, n => if n = 0 then [] else n % 10 :: natDigitsRev f (n / 10)

/-- Decimal rendering of a natural number, as JavaScript renders it. -/
def renderNat (n : Nat) : Str :=
  if n = 0 then ['0'] else ((natDigitsRev n n).map Nat.digitChar).reverse

/-- Left-pad a digit string with zeros up to width `k`. -/
def padZeros (k : Nat) (s : Str) : Str := List.replicate (k - s.length) '0' ++ s

/-- Strip factors of ten from `a`, at most `k` of them, returning the
stripped value and the number of unstripped decimal places. -/
def stripTensAux : Nat → Nat → Nat × Nat
  | a, 0 => (a, 0)
  | a, k + 1 => if a % 10 = 0 then stripTensAux (a / 10) k else (a, k + 1)

/-- Model of JavaScript `String(n)` for the exact number `m * 10 ^ e`:
plain decimal notation with no trailing fractional zeros.  (JS switches
to scientific notation for magnitudes ≥ 1e21 or < 1e-6; that cosmetic
difference is not modelled, the rendered digits stay exact.) -/
def numRender (m e : Int) : Str :=
  if m = 0 then ['0']
  else
    let sgn : Str := if m < 0 then ['-'] else []
    let a := m.natAbs
    if 0 ≤ e then sgn ++ renderNat (a * 10 ^ e.toNat)
    else
      let p := stripTensAux a (-e).toNat
      if p.2 = 0 then sgn ++ renderNat p.1
      else sgn ++ renderNat (p.1 / 10 ^ p.2) ++ '.' :: padZeros p.2 (renderNat (p.1 % 10 ^ p.2))

example : numRender 125 (-1) = ("12.5".data) := by decide
example : numRender (-5) (-3) = ("-0.005".data) := by decide
example : numRender 5 3 = ("5000".data) := by decide
example : numRender 1000 (-1) = ("100".data) := by decide
example : numRender 0 7 = ("0".data) := by decide

/-- A parsed JSON value.  Numbers carry the exact pair mantissa/exponent
read from the numeric literal. -/
inductive JsonValue where
  | null
  | bool (b : Bool)
  | num (m : Int) (e : Int)
  | str (s : Str)
  | arr (items : List JsonValue)
  | obj (fields : List (Str × JsonValue))

/-- JavaScript property access `v.k` on a parsed JSON value: only
objects have fields; a duplicate key keeps the last occurrence, as
`JSON.parse` does. -/
def JsonValue.getField : JsonValue → Str → Option JsonValue
  | .obj fs, k => ((fs.filter (fun p => p.1 == k)).getLast?).map (fun p => p.2)
  | _, _ => none

/-- JavaScript truthiness of a JSON value. -/
def jsFalsy : JsonValue → Bool
  | .null => true
  | .bool b => !b
  | .num m _ => m == 0
  | .str s => s.isEmpty
  | .arr _ => false
  | .obj _ => false

mutual
/-- Model of JavaScript `String(v)` on a JSON value. -/
def jsToString : JsonValue → Str
  | .null => "null".data
  | .bool true => "true".data
  | .bool false => "false".data
  | .num m e => numRender m e
  | .str s => s
  | .arr xs => jsArrJoin xs
  | .obj _ => "[object Object]".data

/-- `Array.prototype.toString`: elements joined with commas, `null`
rendering as the empty string. -/
def jsArrJoin : List JsonValue → Str
  | [] => []
  | [x] => (match x with | .null => [] | v => jsToString v)
  | x :: y :: xs =>
    (match x with | .null => [] | v => jsToString v) ++ ',' :: jsArrJoin (y :: xs)
end

/-- JavaScript `Number.prototype.toFixed(2)` on the exact value
`m * 10 ^ e`: sign, then the integer `n` minimizing the distance of
`n / 100` to the magnitude (ties to the larger `n`), written with
exactly two decimals. -/
def toFixed2 (m e : Int) : Str :=
  let neg := m < 0
  let a := m.natAbs
  let n : Nat :=
    if 0 ≤ e + 2 then a * 10 ^ (e + 2).toNat
    else (2 * a + 10 ^ (-(e + 2)).toNat) / (2 * 10 ^ (-(e + 2)).toNat)
  (if neg then ['-'] else []) ++ renderNat (n / 100) ++ '.' :: padZeros 2 (renderNat (n % 100))

example : toFixed2 125 (-2) = ("1.25".data) := by decide
example : toFixed2 5 (-1) = ("0.50".data) := by decide

/-- The raw/parsed pair used for every numeric field (spec `MeasuredValue`). -/
structure MeasuredValue where
  raw : Str
  value : Option JsNum
deriving DecidableEq

/-- Build a `MeasuredValue` from markup cell text: `raw` is the text
itself, `value` its `parseKoreanNumber` result (the HTML extractors). -/
def mvOfText (t : Str) : MeasuredValue := { raw := t, value := parseKoreanNumber t }

/-- Build a `MeasuredValue` from a provider JSON field, as
`getEtfsByMarketCap` does: `raw := String(field ?? "")`, and `value` is
the field itself when it is of numeric type, else `null`. -/
def etfMeasured (v : Option JsonValue) : MeasuredValue :=
  { raw :=
      match v with
      | none => []
      | some .null => []
      | some x => jsToString x
  , value :=
      match v with
      | some (.num m e) => some (.fin m e)
      | _ => none }

/-- The `changeRate` / `threeMonthReturn` mapping of `getEtfsByMarketCap`:
`null`-ish gives `null`; a number is formatted with `toFixed(2)`; any
other value is converted with `String`. -/
def etfTextField : Option JsonValue → Option Str
  | none => none
  | some .null => none
  | some (.num m e) => some (toFixed2 m e)
  | some v => some (jsToString v)

structure EtfRecord where
  name : Option JsonValue
  code : Option JsonValue
  currentPrice : MeasuredValue
  nav : MeasuredValue
  changeRate : Option Str
  threeMonthReturn : Option Str
  volume : MeasuredValue
  tradingValueMillion : MeasuredValue
  marketCapHundredMillion : MeasuredValue

/-- Field mapping of one ETF item (index.js lines 100–143). -/
def etfItemToRecord (item : JsonValue) : EtfRecord :=
  { name := item.getField ("itemname".data)
    code := item.getField ("itemcode".data)
    currentPrice := etfMeasured (item.getField ("nowVal".data))
    nav := etfMeasured (item.getField ("nav".data))
    changeRate := etfTextField (item.getField ("changeRate".data))
    threeMonthReturn := etfTextField (item.getField ("threeMonthEarnRate".data))
    volume := etfMeasured (item.getField ("quant".data))
    tradingValueMillion := etfMeasured (item.getField ("amonut".data))
    marketCapHundredMillion := etfMeasured (item.getField ("marketSum".data)) }

inductive EtfError where
  | noJsonFound
  | malformedJson
  | apiError (code : Str)
  | typeErr
deriving DecidableEq

/-- The code part of the thrown message `ETF API 오류: ${json.resultCode
|| "unknown"}`: a falsy or missing status renders as `unknown`. -/
def etfErrorCode (v : Option JsonValue) : Str :=
  match v with
  | none => "unknown".data
  | some x => if jsFalsy x then "unknown".data else jsToString x

/-- Model of `json.result?.etfItemList ?? []` followed by
`.slice(0, limit).map(...)`: missing or `null` levels give the empty
list; a present non-array, non-null list field would make `.map` throw
a `TypeError`. -/
def etfRawItems (j : JsonValue) : Except EtfError (List JsonValue) :=
  match j.getField ("result".data) with
  | none => .ok []
  | some .null => .ok []
  | some r =>
    match r.getField ("etfItemList".data) with
    | none => .ok []
    | some .null => .ok []
    | some (.arr xs) => .ok xs
    | some _ => .error .typeErr

/-- Status check and item mapping of `getEtfsByMarketCap` after the JSON
envelope has been parsed (index.js lines 91–143). -/
def etfProcessJson (limit : Nat) (j : JsonValue) : Except EtfError (List EtfRecord) :=
  match j.getField ("resultCode".data) with
  | some (.str s) =>
    if s = "success".data then
      (etfRawItems j).map (fun xs => (xs.take limit).map etfItemToRecord)
    else .error (.apiError (etfErrorCode (some (.str s))))
  | v => .error (.apiError (etfErrorCode v))

def baseUrl : Str := "https://finance.naver.com".data

def etfUrl (etfType : Nat) (targetColumn sortOrder : Str) : Str :=
  baseUrl ++ "/api/sise/etfItemList.nhn?etfType=".data ++ renderNat etfType
    ++ "&targetColumn=".data ++ targetColumn ++ "&sortOrder=".data ++ sortOrder

structure EtfEnvelope where
  url : Str
  items : List EtfRecord

def jsonWsChars : Str := [' ', '\t', '\n', '\r']

def jsonSkipWs (s : Str) : Str := s.dropWhile (fun c => jsonWsChars.contains c)

/-- JSON string escape characters. -/
def escChar (c : Char) : Option Char :=
  if c = '"' then some '"'
  else if c = '\\' then some '\\'
  else if c = '/' then some '/'
  else if c = 'b' then some '\u0008'
  else if c = 'f' then some '\u000C'
  else if c = 'n' then some '\n'
  else if c = 'r' then some '\r'
  else if c = 't' then some '\t'
  else none

/-- JSON string body after the opening quote; returns content and rest. -/
def parseJString : Nat → Str → Option (Str × Str)
  | 0, _ => none
  | _, [] => none
  | fu + 1, c :: rest =>
    if c = '"' then some ([], rest)
    else if c = '\\' then
      match rest with
      | [] => none
      | e :: rest2 =>
        if e = 'u' then
          match rest2 with
          | h1 :: h2 :: h3 :: h4 :: rest3 =>
            if [h1, h2, h3, h4].all isHexDigitChar then
              (parseJString fu rest3).map
                (fun p => (Char.ofNat (radixVal 16 [h1, h2, h3, h4]) :: p.1, p.2))
            else none
          | _ => none
        else
          match escChar e with
          | some ch => (parseJString fu rest2).map (fun p => (ch :: p.1, p.2))
          | none => none
    else if c.toNat < 32 then none
    else (parseJString fu rest).map (fun p => (c :: p.1, p.2))

/-- JSON numeric literal: `-? (0 | [1-9]digits) (. digits)? (exp)?`,
read into the exact mantissa/exponent pair. -/
def parseJNumber (s : Str) : Option (JsonValue × Str) :=
  let neg := decide (s.head? = some '-')
  let s1 := if neg then s.tail else s
  let ip := s1.takeWhile isDigitChar
  let r1 := s1.dropWhile isDigitChar
  if ip = [] then none
  else if ip.length > 1 && ip.head? = some '0' then none
  else
    let fr : Option (Str × Str) :=
      match r1 with
      | '.' :: t =>
        let fp := t.takeWhile isDigitChar
        if fp = [] then none else some (fp, t.dropWhile isDigitChar)
      | _ => some ([], r1)
    match fr with
    | none => none
    | some (fp, r2) =>
      let ex : Option (Int × Str) :=
        match r2 with
        | c :: t =>
          if c = 'e' || c = 'E' then
            match t with
            | '+' :: u =>
              let ds := u.takeWhile isDigitChar
              if ds = [] then none
              else some ((natValOfDigits ds : Int), u.dropWhile isDigitChar)
            | '-' :: u =>
              let ds := u.takeWhile isDigitChar
              if ds = [] then none
              else some (-(natValOfDigits ds : Int), u.dropWhile isDigitChar)
            | u =>
              let ds := u.takeWhile isDigitChar
              if ds = [] then none
              else some ((natValOfDigits ds : Int), u.dropWhile isDigitChar)
          else some (0, r2)
        | [] => some (0, [])
      match ex with
      | none => none
      | some (e, rest) =>
        let mAbs : Int := natValOfDigits ip * 10 ^ fp.length + natValOfDigits fp
        some (.num (if neg then -mAbs else mAbs) (e - fp.length), rest)

mutual
/-- Recursive-descent JSON value parser (model of `JSON.parse`), with
explicit fuel for structural termination. -/
def parseJVal : Nat → Str → Option (JsonValue × Str)
  | 0, _ => none
  | fu + 1, s0 =>
    let s := jsonSkipWs s0
    match s with
    | [] => none
    | c :: rest =>
      if c = '"' then (parseJString (rest.length + 1) rest).map (fun p => (.str p.1, p.2))
      else if c = '{' then
        match jsonSkipWs rest with
        | '}' :: r2 => some (.obj [], r2)
        | r1 => parseJObjMems fu r1 []
      else if c = '[' then
        match jsonSkipWs rest with
        | ']' :: r2 => some (.arr [], r2)
        | r1 => parseJArrElems fu r1 []
      else
        match s with
        | 't' :: 'r' :: 'u' :: 'e' :: r => some (.bool true, r)
        | 'f' :: 'a' :: 'l' :: 's' :: 'e' :: r => some (.bool false, r)
        | 'n' :: 'u' :: 'l' :: 'l' :: r => some (.null, r)
        | _ => parseJNumber s

def parseJObjMems : Nat → Str → List (Str × JsonValue) → Option (JsonValue × Str)
  | 0, _, _ => none
  | fu + 1, s0, acc =>
    match jsonSkipWs s0 with
    | '"' :: rest =>
      match parseJString (rest.length + 1) rest with
      | none => none
      | some (key, r1) =>
        match jsonSkipWs r1 with
        | ':' :: r2 =>
          match parseJVal fu r2 with
          | none => none
          | some (v, r3) =>
            match jsonSkipWs r3 with
            | ',' :: r4 => parseJObjMems fu r4 (acc ++ [(key, v)])
            | '}' :: r4 => some (.obj (acc ++ [(key, v)]), r4)
            | _ => none
        | _ => none
    | _ => none

def parseJArrElems : Nat → Str → List JsonValue → Option (JsonValue × Str)
  | 0, _, _ => none
  | fu + 1, s0, acc =>
    match parseJVal fu s0 with
    | none => none
    | some (v, r1) =>
      match jsonSkipWs r1 with
      | ',' :: r2 => parseJArrElems fu r2 (acc ++ [v])
      | ']' :: r2 => some (.arr (acc ++ [v]), r2)
      | _ => none
end

/-- Model of `JSON.parse`: one value, optionally surrounded by
whitespace, nothing else. -/
def jsonParse (s : Str) : Option JsonValue :=
  match parseJVal (2 * s.length + 4) s with
  | some (v, rest) => if jsonSkipWs rest = [] then some v else none
  | none => none

def firstIdxOf (s : Str) (c : Char) : Option Nat := s.findIdx? (fun x => x == c)

def lastIdxOf (s : Str) (c : Char) : Option Nat :=
  (s.reverse.findIdx? (fun x => x == c)).map (fun k => s.length - 1 - k)

/-- The JSONP-tolerant envelope slicing of `getEtfsByMarketCap`
(index.js lines 79–88): trim the decoded text, then slice from the
first `{` to the last `}` inclusive; `none` when either is absent. -/
def extractJsonSlice (decoded : Str) : Option Str :=
  let t := jsTrim decoded
  match firstIdxOf t '{', lastIdxOf t '}' with
  | some i, some j => some ((t.drop i).take (j + 1 - i))
  | _, _ => none

/-- The full `getEtfsByMarketCap` transform on the decoded response
text (the network fetch and EUC-KR byte decoding are the external
boundary): envelope slicing, JSON parsing, status validation, item
mapping, truncation to `limit`. -/
def getEtfsByMarketCap (decoded : Str) (limit etfType : Nat)
    (targetColumn sortOrder : Str) : Except EtfError EtfEnvelope :=
  match extractJsonSlice decoded with
  | none => .error .noJsonFound
  | some sl =>
    match jsonParse sl with
    | none => .error .malformedJson
    | some j =>
      (etfProcessJson limit j).map
        (fun items => { url := etfUrl etfType targetColumn sortOrder, items := items })

example : jsonParse ("\x7b\"a\": [1, -2.5, \"x\"], \"b\": null\x7d".data) =
    some (.obj [("a".data, .arr [.num 1 0, .num (-25) (-1), .str ("x".data)]),
                ("b".data, .null)]) := by rfl

example : extractJsonSlice ("cb(\x7b\"k\":1\x7d);".data) = some ("\x7b\"k\":1\x7d".data) := by decide
example : extractJsonSlice ("no json here".data) = none := by decide

/-- A parsed HTML node, the document shape produced by the markup
parser: an element with tag, attributes and children, or a text node. -/
inductive HNode where
  | elem (tag : Str) (attrs : List (Str × Str)) (children : List HNode)
  | text (s : Str)

mutual
/-- Concatenated text content of a node (cheerio `.text()`). -/
def nodeText : HNode → Str
  | .text s => s
  | .elem _ _ cs => nodesText cs

def nodesText : List HNode → Str
  | [] => []
  | n :: ns => nodeText n ++ nodesText ns
end

mutual
/-- All descendants of a node in document (pre-)order, self excluded,
the search space of cheerio `.find(...)`. -/
def descNodes : HNode → List HNode
  | .text _ => []
  | .elem _ _ cs => descList cs

def descList : List HNode → List HNode
  | [] => []
  | n :: ns => n :: (descNodes n ++ descList ns)
end

def isElem : HNode → Bool
  | .elem _ _ _ => true
  | .text _ => false

/-- First value of an attribute on an element node. -/
def getAttr (n : HNode) (k : Str) : Option Str :=
  match n with
  | .elem _ attrs _ => ((attrs.filter (fun p => p.1 == k)).head?).map (fun p => p.2)
  | .text _ => none

/-- Split a class attribute value on whitespace runs. -/
def splitOnWsAux : Str → Str → List Str
  | [], cur => if cur = [] then [] else [cur.reverse]
  | c :: rest, cur =>
    if jsIsWhitespace c then
      if cur = [] then splitOnWsAux rest [] else cur.reverse :: splitOnWsAux rest []
    else splitOnWsAux rest (c :: cur)

def splitOnWs (s : Str) : List Str := splitOnWsAux s []

def classListOf (n : HNode) : List Str := splitOnWs ((getAttr n ("class".data)).getD [])

def hasClass (n : HNode) (c : Str) : Bool := (classListOf n).contains c

def tagIs (t : Str) (n : HNode) : Bool :=
  match n with
  | .elem tg _ _ => tg == t
  | .text _ => false

/-- CSS `tag.cls1.cls2` matching against one node. -/
def matchesSel (t : Str) (cls : List Str) (n : HNode) : Bool :=
  tagIs t n && cls.all (hasClass n)

/-- cheerio `root.find(p)`: matching descendants in document order. -/
def findAll (p : HNode → Bool) (root : HNode) : List HNode :=
  (descNodes root).filter p

/-- Descendant search continued from each node of a previous selection. -/
def findWithin (p : HNode → Bool) (roots : List HNode) : List HNode :=
  roots.flatMap (findAll p)

def childElems : HNode → List HNode
  | .elem _ _ cs => cs.filter isElem
  | .text _ => []

def selfAndDesc (n : HNode) : List HNode := n :: descNodes n

/-- CSS `tag:nth-child(k)` among the descendants of `root`: descendant
elements of the given tag sitting at (1-based) position `k` among their
parent's element children. -/
def nthChildOfTag (t : Str) (k : Nat) (root : HNode) : List HNode :=
  (selfAndDesc root).flatMap (fun par =>
    match (childElems par)[k - 1]? with
    | some c => if tagIs t c then [c] else []
    | none => [])

/-- Text of an optional selection head (empty selection gives `""`). -/
def optText (n : Option HNode) : Str :=
  match n with
  | some x => nodeText x
  | none => []

/-- cheerio `.attr("href") || ""` on an optional selection. -/
def attrOrEmpty (n : Option HNode) (k : Str) : Str := ((n.bind (fun x => getAttr x k)).getD [])

/-- Concatenated `.text()` of a whole selection. -/
def selText (ns : List HNode) : Str := ns.flatMap nodeText

/-- Model of the regex `/code=(\d{6})/` applied at the start of the
text: the literal `code=` followed by six digits, capturing the digits. -/
def codeAt : Str → Option Str
  | 'c' :: 'o' :: 'd' :: 'e' :: '=' :: d1 :: d2 :: d3 :: d4 :: d5 :: d6 :: _ =>
    if [d1, d2, d3, d4, d5, d6].all isDigitChar then some [d1, d2, d3, d4, d5, d6] else none
  | _ => none

/-- First match of `/code=(\d{6})/` anywhere in the text. -/
def findCodeMatch : Str → Option Str
  | [] => none
  | c :: rest =>
    match codeAt (c :: rest) with
    | some d => some d
    | none => findCodeMatch rest

/-- Model of the regex `/no=(\d+)/` applied at the start of the text. -/
def noAt : Str → Option Str
  | 'n' :: 'o' :: '=' :: rest =>
    let ds := rest.takeWhile isDigitChar
    if ds = [] then none else some ds
  | _ => none

/-- First match of `/no=(\d+)/` anywhere in the text. -/
def findNoMatch : Str → Option Str
  | [] => none
  | c :: rest =>
    match noAt (c :: rest) with
    | some d => some d
    | none => findNoMatch rest

example : findCodeMatch ("/item/main.naver?code=005930&x=1".data) = some ("005930".data) := by decide
example : findCodeMatch ("?stock=123456".data) = none := by decide
example : findCodeMatch ("code=12&code=345678".data) = some ("345678".data) := by decide
example : findNoMatch ("/sise/sise_group_detail.naver?type=theme&no=237".data) = some ("237".data) := by decide

/-- The cheerio `.each` loop shared by the HTML listing extractors:
build a record per row, skip rows mapped to `none`, stop (by returning
`false` in the callback) once `limit` records have been pushed. -/
def pushLoop (f : α → Option β) (limit : Nat) : List α → List β → List β
  | [], acc => acc
  | r :: rs, acc =>
    match f r with
    | none => pushLoop f limit rs acc
    | some x =>
      let acc2 := acc ++ [x]
      if limit ≤ acc2.length then acc2 else pushLoop f limit rs acc2

mutual
/-- Serialization of a node back to markup text, the model of cheerio
`$.html()` used by the search fallback scan. -/
def renderNode : HNode → Str
  | .text s => s
  | .elem t attrs cs =>
    '<' :: (t ++ renderAttrsList attrs ++ '>' :: renderNodes cs ++ '<' :: '/' :: (t ++ ['>']))

def renderNodes : List HNode → Str
  | [] => []
  | n :: ns => renderNode n ++ renderNodes ns

def renderAttrsList : List (Str × Str) → Str
  | [] => []
  | p :: ps => ' ' :: (p.1 ++ '=' :: '"' :: (p.2 ++ '"' :: renderAttrsList ps))
end

/-- Rows selected by `$('table.<cls> tbody tr')` (with an empty `cls`
list for the bare `table tbody tr` of the theme extractor). -/
def tableRows (cls : List Str) (doc : HNode) : List HNode :=
  findWithin (tagIs ("tr".data))
    (findWithin (tagIs ("tbody".data)) (findAll (matchesSel ("table".data) cls) doc))

structure DividendRecord where
  name : Str
  code : Option Str
  currentPrice : MeasuredValue
  baseMonth : Str
  dividend : MeasuredValue
  dividendYield : Str
  payoutRatio : Str
deriving DecidableEq

/-- Text of the `i`-th `td` of a row (`tds.eq(i).text().trim()`; an
out-of-range index gives the empty selection, hence `""`). -/
def cellText (row : HNode) (i : Nat) : Str :=
  jsTrim (optText ((findAll (tagIs ("td".data)) row)[i]?))

/-- The first `td.txt.frst a` anchor of a dividend row. -/
def divNameAnchor (row : HNode) : Option HNode :=
  (findWithin (tagIs ("a".data))
    (findAll (matchesSel ("td".data) ["txt".data, "frst".data]) row)).head?

/-- One row of `getDividendYieldStocks` (index.js lines 248–285):
`none` when the trimmed name is empty (spacer rows are skipped). -/
def divRowRecord (row : HNode) : Option DividendRecord :=
  let anchor := divNameAnchor row
  let name := jsTrim (optText anchor)
  if name = [] then none
  else some
    { name := name
      code := findCodeMatch (attrOrEmpty anchor ("href".data))
      currentPrice := mvOfText (cellText row 1)
      baseMonth := cellText row 2
      dividend := mvOfText (cellText row 3)
      dividendYield := cellText row 4
      payoutRatio := cellText row 5 }

structure DivEnvelope where
  url : Str
  items : List DividendRecord
  page : Nat
deriving DecidableEq

def divUrl (page : Nat) : Str :=
  baseUrl ++ "/sise/dividend_list.naver?page=".data ++ renderNat page

/-- Model of `getDividendYieldStocks` on a parsed document. -/
def getDividendYieldStocks (doc : HNode) (page limit : Nat) : DivEnvelope :=
  { url := divUrl page
    items := pushLoop divRowRecord limit (tableRows ["tb_ty".data] doc) []
    page := page }

structure McapRecord where
  name : Str
  code : Option Str
  currentPrice : MeasuredValue
deriving DecidableEq

/-- The first `td:nth-child(2) a` anchor of a market-cap row. -/
def mcapNameAnchor (row : HNode) : Option HNode :=
  (findWithin (tagIs ("a".data)) (nthChildOfTag ("td".data) 2 row)).head?

/-- One row of `getMarketCapStocks` (index.js lines 211–235). -/
def mcapRowRecord (row : HNode) : Option McapRecord :=
  let anchor := mcapNameAnchor row
  let name := jsTrim (optText anchor)
  if name = [] then none
  else some
    { name := name
      code := findCodeMatch (attrOrEmpty anchor ("href".data))
      currentPrice := mvOfText (jsTrim (selText (nthChildOfTag ("td".data) 3 row))) }

structure McapEnvelope where
  url : Str
  items : List McapRecord
  sosok : Nat
  page : Nat
deriving DecidableEq

def mcapUrl (sosok page : Nat) : Str :=
  baseUrl ++ "/sise/sise_market_sum.naver?sosok=".data ++ renderNat sosok
    ++ "&page=".data ++ renderNat page

/-- Model of `getMarketCapStocks` on a parsed document. -/
def getMarketCapStocks (doc : HNode) (sosok page limit : Nat) : McapEnvelope :=
  { url := mcapUrl sosok page
    items := pushLoop mcapRowRecord limit (tableRows ["type_2".data] doc) []
    sosok := sosok
    page := page }

structure ThemeRecord where
  themeName : Str
  themeId : Option Str
  changeRate : Str
  leaders : List Str
deriving DecidableEq

/-- The first `td.col_type1 a` anchor of a theme row. -/
def themeNameAnchor (row : HNode) : Option HNode :=
  (findWithin (tagIs ("a".data))
    (findAll (matchesSel ("td".data) ["col_type1".data]) row)).head?

/-- One row of `getThemesWithLeaders` (index.js lines 162–194). -/
def themeRowRecord (row : HNode) : Option ThemeRecord :=
  let anchor := themeNameAnchor row
  let themeName := jsTrim (optText anchor)
  if themeName = [] then none
  else some
    { themeName := themeName
      themeId := findNoMatch (attrOrEmpty anchor ("href".data))
      changeRate := jsTrim (selText (findWithin (tagIs ("span".data))
        (findAll (matchesSel ("td".data) ["col_type2".data]) row)))
      leaders :=
        ((findWithin (tagIs ("a".data))
            ((findAll (tagIs ("td".data)) row).getLast?.toList)).map
          (fun a => jsTrim (nodeText a))).filter (fun t => t ≠ []) }

structure ThemeEnvelope where
  url : Str
  items : List ThemeRecord
deriving DecidableEq

def themeUrl : Str := baseUrl ++ "/sise/theme.naver".data

/-- Model of `getThemesWithLeaders` on a parsed document. -/
def getThemesWithLeaders (doc : HNode) (limit : Nat) : ThemeEnvelope :=
  { url := themeUrl
    items := pushLoop themeRowRecord limit (tableRows [] doc) [] }

def strStartsWith : Str → Str → Bool
  | _, [] => true
  | [], _ :: _ => false
  | c :: s, p :: ps => c == p && strStartsWith s ps

/-- Model of JavaScript `s.includes(pat)`. -/
def strContains : Str → Str → Bool
  | [], pat => pat.isEmpty
  | c :: rest, pat => strStartsWith (c :: rest) pat || strContains rest pat

def uriUnreservedChar (c : Char) : Bool :=
  ('A' ≤ c && c ≤ 'Z') || ('a' ≤ c && c ≤ 'z') || ('0' ≤ c && c ≤ '9') ||
  ['-', '_', '.', '!', '~', '*', '\'', '(', ')'].contains c

def utf8Bytes (c : Char) : List Nat :=
  let n := c.toNat
  if n < 128 then [n]
  else if n < 2048 then [192 + n / 64, 128 + n % 64]
  else if n < 65536 then [224 + n / 4096, 128 + (n / 64) % 64, 128 + n % 64]
  else [240 + n / 262144, 128 + (n / 4096) % 64, 128 + (n / 64) % 64, 128 + n % 64]

def hexDigitUpper (d : Nat) : Char := if d < 10 then Nat.digitChar d else Char.ofNat (55 + d)

/-- Model of JavaScript `encodeURIComponent`. -/
def encodeURIComponent (s : Str) : Str :=
  s.flatMap (fun c =>
    if uriUnreservedChar c then [c]
    else (utf8Bytes c).flatMap (fun b => ['%', hexDigitUpper (b / 16), hexDigitUpper (b % 16)]))

def searchUrl (query : Str) : Str :=
  baseUrl ++ "/search/search.naver?query=".data ++ encodeURIComponent query
    ++ "&encoding=UTF-8".data

def itemLinkPat : Str := "/item/main.naver?code=".data

/-- Stage 1 of the search: the first anchor whose `href` contains the
item-detail link pattern (index.js lines 296–301). -/
def searchAnchor (doc : HNode) : Option HNode :=
  ((findAll (tagIs ("a".data)) doc).filter
    (fun a => strContains ((getAttr a ("href".data)).getD []) itemLinkPat)).head?

def wrapCompanyH2 (doc : HNode) : List HNode :=
  findWithin (tagIs ("h2".data))
    (findAll (matchesSel ("div".data) ["wrap_company".data]) doc)

/-- The page-title fallback name of the search (index.js lines 316–318). -/
def searchTitleName (doc : HNode) : Str :=
  let t1 := jsTrim (optText ((findWithin (tagIs ("a".data)) (wrapCompanyH2 doc)).head?))
  if t1 ≠ [] then t1 else jsTrim (optText ((wrapCompanyH2 doc).head?))

structure SearchOutcome where
  url : Str
  result : Option (Str × Str)
  message : Option Str
deriving DecidableEq

def notFoundMsg : Str := "검색 결과에서 종목 코드를 찾지 못했습니다.".data

/-- Model of `searchStockCodeByName` on a parsed document
(index.js lines 291–338): anchor stage, whole-markup regex fallback
stage, and the data-level not-found outcome. -/
def searchStockCodeByName (doc : HNode) (query : Str) : SearchOutcome :=
  let link := searchAnchor doc
  let name1 := jsTrim (optText link)
  match findCodeMatch (attrOrEmpty link ("href".data)) with
  | some c =>
    { url := searchUrl query
      result := some ((if name1 = [] then query else name1), c)
      message := none }
  | none =>
    match findCodeMatch (renderNode doc) with
    | some c =>
      let tn := searchTitleName doc
      { url := searchUrl query
        result := some ((if tn = [] then query else tn), c)
        message := none }
    | none =>
      { url := searchUrl query, result := none, message := some notFoundMsg }

def idIs (i : Str) (n : HNode) : Bool := (getAttr n ("id".data)) == some i

structure StockPriceResult where
  url : Str
  name : Option Str
  code : Str
  currentPrice : MeasuredValue
deriving DecidableEq

def priceUrl (code : Str) : Str := baseUrl ++ "/item/main.naver?code=".data ++ code

/-- Model of `getStockPriceByCode` on a parsed document
(index.js lines 341–365). -/
def getStockPriceByCode (doc : HNode) (code : Str) : StockPriceResult :=
  let p1 := jsTrim (optText ((findWithin (matchesSel ("span".data) ["blind".data])
    (findAll (matchesSel ("p".data) ["no_today".data]) doc)).head?))
  let p2 := jsTrim (selText (findAll (fun n => tagIs ("span".data) n && idIs ("now_value".data) n) doc))
  let priceText := if p1 ≠ [] then p1 else p2
  let n1 := jsTrim (optText ((findWithin (tagIs ("a".data)) (wrapCompanyH2 doc)).head?))
  let n2 := jsTrim (selText (wrapCompanyH2 doc))
  let nameText := if n1 ≠ [] then n1 else n2
  { url := priceUrl code
    name := if nameText = [] then none else some nameText
    code := code
    currentPrice := mvOfText priceText }

/-- Little-endian value of a digit list. -/
def ofDigsLE (l : List Nat) : Nat := l.foldr (fun d a => 10 * a + d) 0

theorem isDigitChar_iff {c : Char} : isDigitChar c = true ↔ c ∈ digitChars := by
  simp [isDigitChar, List.contains_iff_exists_mem_beq]

theorem natDigitsRev_val (f : Nat) : ∀ n, n ≤ f → ofDigsLE (natDigitsRev f n) = n := by
  induction f with
  | zero =>
    intro n hn
    interval_cases n
    rfl
  | succ f ih =>
    intro n hn
    unfold natDigitsRev
    by_cases h0 : n = 0
    · simp [h0, ofDigsLE]
    · simp only [if_neg h0, ofDigsLE, List.foldr_cons]
      have hlt : n / 10 < n := Nat.div_lt_self (by omega) (by omega)
      have := ih (n / 10) (by omega)
      simp only [ofDigsLE] at this
      rw [this]
      omega

theorem natDigitsRev_lt10 (f : Nat) : ∀ n d, d ∈ natDigitsRev f n → d < 10 := by
  induction f with
  | zero => intro n d h; simp [natDigitsRev] at h
  | succ f ih =>
    intro n d h
    unfold natDigitsRev at h
    by_cases h0 : n = 0
    · simp [h0] at h
    · simp only [if_neg h0, List.mem_cons] at h
      rcases h with h | h
      · omega
      · exact ih _ _ h

theorem natDigitsRev_len (f : Nat) : ∀ n k, n ≤ f → n < 10 ^ k → (natDigitsRev f n).length ≤ k := by
  induction f with
  | zero =>
    intro n k hn _
    interval_cases n
    simp [natDigitsRev]
  | succ f ih =>
    intro n k hn hk
    unfold natDigitsRev
    by_cases h0 : n = 0
    · simp [h0]
    · simp only [if_neg h0, List.length_cons]
      cases k with
      | zero => simp at hk; omega
      | succ k =>
        have hlt : n / 10 < n := Nat.div_lt_self (by omega) (by omega)
        have hp : (10 : Nat) ^ (k + 1) = 10 ^ k * 10 := Nat.pow_succ ..
        have h2 : n / 10 < 10 ^ k := by omega
        have := ih (n / 10) k (by omega) h2
        omega

theorem digitChar_mem_digitChars {d : Nat} (h : d < 10) : Nat.digitChar d ∈ digitChars := by
  interval_cases d <;> decide

theorem digitVal_digitChar {d : Nat} (h : d < 10) : digitVal (Nat.digitChar d) = d := by
  interval_cases d <;> decide

theorem renderNat_all_digits (n : Nat) : ∀ c ∈ renderNat n, isDigitChar c = true := by
  intro c hc
  unfold renderNat at hc
  by_cases h0 : n = 0
  · simp [h0] at hc
    subst hc
    decide
  · simp only [if_neg h0, List.mem_reverse, List.mem_map] at hc
    obtain ⟨d, hd, rfl⟩ := hc
    exact isDigitChar_iff.mpr (digitChar_mem_digitChars (natDigitsRev_lt10 n n d hd))

theorem foldr_digit_congr (L : List Nat) (h : ∀ d ∈ L, d < 10) :
    L.foldr (fun x y => 10 * y + digitVal (Nat.digitChar x)) 0 = ofDigsLE L := by
  induction L with
  | nil => rfl
  | cons d L ih =>
    simp only [List.foldr_cons, ofDigsLE]
    rw [show L.foldr (fun x y => 10 * y + digitVal (Nat.digitChar x)) 0 = ofDigsLE L from
      ih (fun x hx => h x (List.mem_cons_of_mem _ hx))]
    rw [digitVal_digitChar (h d (List.mem_cons_self _ _))]
    rfl

theorem natValOfDigits_renderNat (n : Nat) : natValOfDigits (renderNat n) = n := by
  unfold renderNat
  by_cases h0 : n = 0
  · simp [h0]
    decide
  · simp only [if_neg h0]
    unfold natValOfDigits
    rw [List.foldl_reverse, List.foldr_map]
    have := foldr_digit_congr (natDigitsRev n n) (natDigitsRev_lt10 n n)
    simp only [show (fun (x : Nat) (y : Nat) => 10 * y + digitVal (Nat.digitChar x)) =
      (fun x y => 10 * y + digitVal (Nat.digitChar x)) from rfl] at this
    rw [show (natDigitsRev n n).foldr (fun y x => 10 * x + digitVal (Nat.digitChar y)) 0 =
      (natDigitsRev n n).foldr (fun x y => 10 * y + digitVal (Nat.digitChar x)) 0 from rfl]
    rw [this]
    exact natDigitsRev_val n n le_rfl

theorem renderNat_ne_nil (n : Nat) : renderNat n ≠ [] := by
  unfold renderNat
  by_cases h0 : n = 0
  · simp [h0]
  · simp only [if_neg h0]
    intro h
    rw [List.reverse_eq_nil_iff, List.map_eq_nil_iff] at h
    cases n with
    | zero => exact h0 rfl
    | succ f =>
      unfold natDigitsRev at h
      simp [h0] at h

theorem renderNat_len_le {n k : Nat} (hk : 1 ≤ k) (h : n < 10 ^ k) : (renderNat n).length ≤ k := by
  unfold renderNat
  by_cases h0 : n = 0
  · simp [h0]; omega
  · simp only [if_neg h0, List.length_reverse, List.length_map]
    exact natDigitsRev_len n n k le_rfl h

theorem padZeros_length {k : Nat} {s : Str} (h : s.length ≤ k) : (padZeros k s).length = k := by
  simp [padZeros]
  omega

theorem foldl_digit_zeros (j : Nat) :
    List.foldl (fun a c => 10 * a + digitVal c) 0 (List.replicate j '0') = 0 := by
  induction j with
  | zero => rfl
  | succ j ih => simpa [List.replicate_succ, digitVal] using ih

theorem natValOfDigits_padZeros (k : Nat) (s : Str) :
    natValOfDigits (padZeros k s) = natValOfDigits s := by
  unfold padZeros natValOfDigits
  rw [List.foldl_append, foldl_digit_zeros]

theorem padZeros_all_digits {k : Nat} {s : Str} (h : ∀ c ∈ s, isDigitChar c = true) :
    ∀ c ∈ padZeros k s, isDigitChar c = true := by
  intro c hc
  rcases List.mem_append.mp hc with hc | hc
  · rw [List.mem_replicate] at hc
    rw [hc.2]
    decide
  · exact h c hc

theorem digit_char_facts {c : Char} (h : isDigitChar c = true) :
    jsIsWhitespace c = false ∧ c ≠ ',' ∧ c ≠ '+' ∧ c ≠ '-' ∧ c ≠ 'I' := by
  have hm := isDigitChar_iff.mp h
  simp only [digitChars, List.mem_cons, List.not_mem_nil, or_false] at hm
  rcases hm with rfl | rfl | rfl | rfl | rfl | rfl | rfl | rfl | rfl | rfl <;> decide

theorem isDigitChar_not_ws {c : Char} (h : isDigitChar c = true) : jsIsWhitespace c = false :=
  (digit_char_facts h).1

theorem isDigitChar_ne_comma {c : Char} (h : isDigitChar c = true) : c ≠ ',' :=
  (digit_char_facts h).2.1

theorem dropWhile_eq_self_of_all {p : α → Bool} {l : List α} (h : ∀ c ∈ l, p c = false) :
    l.dropWhile p = l := by
  cases l with
  | nil => rfl
  | cons c t => simp [List.dropWhile_cons, h c (List.mem_cons_self _ _)]

theorem jsTrim_eq_self {s : Str} (h : ∀ c ∈ s, jsIsWhitespace c = false) : jsTrim s = s := by
  unfold jsTrim
  rw [dropWhile_eq_self_of_all h,
    dropWhile_eq_self_of_all (fun c hc => h c (List.mem_reverse.mp hc)),
    List.reverse_reverse]

theorem stripCommas_eq_self {s : Str} (h : ∀ c ∈ s, c ≠ ',') : stripCommas s = s := by
  unfold stripCommas
  rw [List.filter_eq_self]
  intro a ha
  simpa using h a ha

theorem stripWs_eq_self {s : Str} (h : ∀ c ∈ s, jsIsWhitespace c = false) : stripWs s = s := by
  unfold stripWs
  rw [List.filter_eq_self]
  intro a ha
  simp [h a ha]

theorem takeWhile_eq_self_of_all {p : α → Bool} {l : List α} (h : ∀ c ∈ l, p c = true) :
    l.takeWhile p = l := by
  induction l with
  | nil => rfl
  | cons c t ih =>
    rw [List.takeWhile_cons, if_pos (h c (List.mem_cons_self _ _)),
      ih (fun x hx => h x (List.mem_cons_of_mem _ hx))]

theorem dropWhile_eq_nil_of_all {p : α → Bool} {l : List α} (h : ∀ c ∈ l, p c = true) :
    l.dropWhile p = [] := by
  induction l with
  | nil => rfl
  | cons c t ih =>
    rw [List.dropWhile_cons, if_pos (h c (List.mem_cons_self _ _))]
    exact ih (fun x hx => h x (List.mem_cons_of_mem _ hx))

theorem parseUnsignedDecimal_digits {ds : Str} (h0 : ds ≠ [])
    (h : ∀ c ∈ ds, isDigitChar c = true) :
    parseUnsignedDecimal ds = some ((natValOfDigits ds : Int), 0) := by
  unfold parseUnsignedDecimal
  rw [takeWhile_eq_self_of_all h, dropWhile_eq_nil_of_all h]
  simp [h0, parseExpTail]

theorem parseUnsignedDecimal_intfrac {ip fr : Str} (h0 : ip ≠ [])
    (hip : ∀ c ∈ ip, isDigitChar c = true) (hfr : ∀ c ∈ fr, isDigitChar c = true) :
    parseUnsignedDecimal (ip ++ '.' :: fr) =
      some ((natValOfDigits ip * 10 ^ fr.length + natValOfDigits fr : Int),
            -(fr.length : Int)) := by
  have hfr1 : fr.takeWhile isDigitChar = fr := takeWhile_eq_self_of_all hfr
  have hfr2 : fr.dropWhile isDigitChar = [] := dropWhile_eq_nil_of_all hfr
  unfold parseUnsignedDecimal
  rw [List.takeWhile_append_of_pos hip, List.dropWhile_append_of_pos hip]
  simp [show isDigitChar '.' = false from rfl, hfr1, hfr2, h0, parseExpTail,
    List.takeWhile_cons, List.dropWhile_cons]

theorem parseNonDecimal_eq_none {s : Str}
    (h : ∀ c2 ds, s = '0' :: c2 :: ds →
      ¬(c2 = 'x' || c2 = 'X') = true ∧ ¬(c2 = 'o' || c2 = 'O') = true ∧
      ¬(c2 = 'b' || c2 = 'B') = true) :
    parseNonDecimal s = none := by
  unfold parseNonDecimal
  split
  · rename_i c2 ds
    obtain ⟨hx, ho, hb⟩ := h c2 ds rfl
    rw [if_neg hx, if_neg ho, if_neg hb]
  · rfl

theorem parseNonDecimal_cons_ne0 {c : Char} {t : Str} (h : c ≠ '0') :
    parseNonDecimal (c :: t) = none := by
  refine parseNonDecimal_eq_none ?_
  intro c2 ds heq
  injection heq with h1 _
  exact absurd h1 h

theorem parseNonDecimal_digitdot {s : Str}
    (h : ∀ c ∈ s, c = '.' ∨ isDigitChar c = true) : parseNonDecimal s = none := by
  refine parseNonDecimal_eq_none ?_
  intro c2 ds heq
  subst heq
  have h2 := h c2 (List.mem_cons_of_mem _ (List.mem_cons_self _ _))
  rcases h2 with rfl | h2
  · refine ⟨by decide, by decide, by decide⟩
  · have hm := isDigitChar_iff.mp h2
    simp only [digitChars, List.mem_cons, List.not_mem_nil, or_false] at hm
    rcases hm with rfl | rfl | rfl | rfl | rfl | rfl | rfl | rfl | rfl | rfl <;>
      refine ⟨by decide, by decide, by decide⟩

theorem jsToNumber_sgnBody (neg : Bool) {d : Char} {t : Str} {M E : Int}
    (hd : isDigitChar d = true)
    (hchars : ∀ c ∈ d :: t, c = '.' ∨ isDigitChar c = true)
    (hparse : parseUnsignedDecimal (d :: t) = some (M, E)) :
    jsToNumber ((if neg then ['-'] else []) ++ d :: t) =
      some (.fin (if neg then -M else M) E) := by
  have hws : ∀ c ∈ d :: t, jsIsWhitespace c = false := by
    intro c hc
    rcases hchars c hc with rfl | h
    · decide
    · exact isDigitChar_not_ws h
  have hfacts := digit_char_facts hd
  have hinf : (d :: t) ≠ infinityChars := by
    intro heq
    injection heq with h1 _
    exact hfacts.2.2.2.2 h1
  cases neg with
  | false =>
    have hjsu : jsUnsigned (d :: t) false = some (.fin M E) := by
      unfold jsUnsigned
      rw [if_neg hinf, hparse]
      rfl
    show jsToNumber (d :: t) = some (.fin M E)
    unfold jsToNumber
    simp only [jsTrim_eq_self hws, parseNonDecimal_digitdot hchars]
    simp [hfacts.2.2.1, hfacts.2.2.2.1, hjsu]
  | true =>
    have hjsu : jsUnsigned (d :: t) true = some (.fin (-M) E) := by
      unfold jsUnsigned
      rw [if_neg hinf, hparse]
      rfl
    have hws2 : ∀ c ∈ '-' :: d :: t, jsIsWhitespace c = false := by
      intro c hc
      rcases List.mem_cons.mp hc with rfl | hc
      · decide
      · exact hws c hc
    show jsToNumber ('-' :: d :: t) = some (.fin (-M) E)
    unfold jsToNumber
    simp only [jsTrim_eq_self hws2,
      parseNonDecimal_cons_ne0 (show ('-' : Char) ≠ '0' by decide)]
    simp [hjsu, show ¬('-' : Char) = '+' from by decide]

theorem stripTensAux_spec : ∀ (k a : Nat),
    (stripTensAux a k).2 ≤ k ∧ a = (stripTensAux a k).1 * 10 ^ (k - (stripTensAux a k).2) := by
  intro k
  induction k with
  | zero => intro a; simp [stripTensAux]
  | succ k ih =>
    intro a
    unfold stripTensAux
    by_cases h : a % 10 = 0
    · simp only [if_pos h]
      obtain ⟨h1, h2⟩ := ih (a / 10)
      refine ⟨by omega, ?_⟩
      have hk : k + 1 - (stripTensAux (a / 10) k).2 = (k - (stripTensAux (a / 10) k).2) + 1 := by
        omega
      rw [hk, pow_succ, ← mul_assoc, ← h2]
      omega
    · simp only [if_neg h]
      simp

theorem renderNat_head_digit (n : Nat) :
    ∃ d t, renderNat n = d :: t ∧ isDigitChar d = true := by
  obtain ⟨d, t, hdt⟩ := List.exists_cons_of_ne_nil (renderNat_ne_nil n)
  exact ⟨d, t, hdt, renderNat_all_digits n d (hdt ▸ List.mem_cons_self d t)⟩

/-- The digits-only body round trip: `Number` on the rendered digits of
`A`, with an optional minus sign. -/
theorem jsToNumber_renderNat (neg : Bool) (A : Nat) :
    jsToNumber ((if neg then ['-'] else []) ++ renderNat A) =
      some (.fin (if neg then -(A : Int) else (A : Int)) 0) := by
  obtain ⟨d, t, hdt, hd⟩ := renderNat_head_digit A
  have hchars : ∀ c ∈ d :: t, c = '.' ∨ isDigitChar c = true := by
    intro c hc
    exact Or.inr (renderNat_all_digits A c (hdt ▸ hc))
  have hparse : parseUnsignedDecimal (d :: t) = some ((A : Int), 0) := by
    rw [← hdt, parseUnsignedDecimal_digits (renderNat_ne_nil A) (renderNat_all_digits A),
      natValOfDigits_renderNat]
  rw [hdt]
  exact jsToNumber_sgnBody neg hd hchars hparse

/-- The int-dot-frac body round trip. -/
theorem jsToNumber_renderFrac (neg : Bool) (ipn r k : Nat) (hk : 1 ≤ k) (hr : r < 10 ^ k) :
    jsToNumber ((if neg then ['-'] else []) ++
        (renderNat ipn ++ '.' :: padZeros k (renderNat r))) =
      some (.fin (if neg then -(ipn * 10 ^ k + r : Int) else (ipn * 10 ^ k + r : Int))
        (-(k : Int))) := by
  obtain ⟨d, t, hdt, hd⟩ := renderNat_head_digit ipn
  have hfr : ∀ c ∈ padZeros k (renderNat r), isDigitChar c = true :=
    padZeros_all_digits (renderNat_all_digits r)
  have hlen : (padZeros k (renderNat r)).length = k :=
    padZeros_length (renderNat_len_le hk hr)
  have hparse : parseUnsignedDecimal (renderNat ipn ++ '.' :: padZeros k (renderNat r)) =
      some ((ipn * 10 ^ k + r : Int), -(k : Int)) := by
    rw [parseUnsignedDecimal_intfrac (renderNat_ne_nil ipn) (renderNat_all_digits ipn) hfr]
    rw [hlen, natValOfDigits_padZeros, natValOfDigits_renderNat, natValOfDigits_renderNat]
  have hchars : ∀ c ∈ renderNat ipn ++ '.' :: padZeros k (renderNat r),
      c = '.' ∨ isDigitChar c = true := by
    intro c hc
    rcases List.mem_append.mp hc with hc | hc
    · exact Or.inr (renderNat_all_digits ipn c hc)
    · rcases List.mem_cons.mp hc with rfl | hc
      · exact Or.inl rfl
      · exact Or.inr (hfr c hc)
  rw [hdt] at hparse hchars ⊢
  rw [show ((d :: t) ++ '.' :: padZeros k (renderNat r) : Str) =
    d :: (t ++ '.' :: padZeros k (renderNat r)) from rfl] at hparse hchars ⊢
  exact jsToNumber_sgnBody neg hd hchars hparse

theorem zpow_toNat_of_nonneg {e : Int} (he : 0 ≤ e) : (10 : ℚ) ^ e = 10 ^ e.toNat := by
  conv_lhs => rw [show e = (e.toNat : ℤ) from (Int.toNat_of_nonneg he).symm]
  rw [zpow_natCast]

theorem zpow_neg_toNat {e : Int} (he : e < 0) : (10 : ℚ) ^ e = ((10 : ℚ) ^ (-e).toNat)⁻¹ := by
  conv_lhs => rw [show e = -(((-e).toNat : ℕ) : ℤ) from by omega]
  rw [zpow_neg, zpow_natCast]

/-- Round trip at the heart of the `MeasuredValue` invariant: converting
the JS string rendering of the exact number `m * 10 ^ e` back with
`Number` succeeds, with the same exact value. -/
theorem jsToNumber_numRender (m e : Int) :
    ∃ M E, jsToNumber (numRender m e) = some (.fin M E) ∧
      (M : ℚ) * 10 ^ E = (m : ℚ) * 10 ^ e := by
  by_cases hm : m = 0
  · subst hm
    refine ⟨0, 0, ?_, by simp⟩
    have h : numRender 0 e = ['0'] := by simp [numRender]
    rw [h]
    decide
  · by_cases he : 0 ≤ e
    · -- nonnegative exponent: plain digits
      have hnum : numRender m e =
          (if m < 0 then ['-'] else []) ++ renderNat (m.natAbs * 10 ^ e.toNat) := by
        simp only [numRender, if_neg hm, if_pos he]
      by_cases hlt : m < 0
      · refine ⟨-(m.natAbs * 10 ^ e.toNat : Nat), 0, ?_, ?_⟩
        · rw [hnum, if_pos hlt]
          simpa using jsToNumber_renderNat true (m.natAbs * 10 ^ e.toNat)
        · rw [zpow_zero, mul_one, zpow_toNat_of_nonneg he]
          push_cast [Int.cast_natAbs]
          rw [abs_of_neg (show (m : ℚ) < 0 from by exact_mod_cast hlt)]
          ring
      · refine ⟨(m.natAbs * 10 ^ e.toNat : Nat), 0, ?_, ?_⟩
        · rw [hnum, if_neg hlt]
          simpa using jsToNumber_renderNat false (m.natAbs * 10 ^ e.toNat)
        · rw [zpow_zero, mul_one, zpow_toNat_of_nonneg he]
          push_cast [Int.cast_natAbs]
          rw [abs_of_nonneg (show (0 : ℚ) ≤ (m : ℚ) from by exact_mod_cast not_lt.mp hlt)]
    · -- negative exponent
      have hel : e < 0 := by omega
      obtain ⟨hp2, hpeq⟩ := stripTensAux_spec (-e).toNat m.natAbs
      set p1 := (stripTensAux m.natAbs (-e).toNat).1 with hp1def
      set k2 := (stripTensAux m.natAbs (-e).toNat).2 with hk2def
      have habsq : |(m : ℚ)| = (p1 : ℚ) * 10 ^ ((-e).toNat - k2) := by
        rw [← Int.cast_abs, Int.abs_eq_natAbs]
        exact_mod_cast congrArg (Nat.cast : ℕ → ℚ) hpeq
      have hmabs : (m : ℚ) = (if m < 0 then -(1 : ℚ) else 1) * |(m : ℚ)| := by
        by_cases hlt : m < 0
        · rw [if_pos hlt, abs_of_neg (show (m : ℚ) < 0 from by exact_mod_cast hlt)]
          ring
        · rw [if_neg hlt,
            abs_of_nonneg (show (0 : ℚ) ≤ (m : ℚ) from by exact_mod_cast not_lt.mp hlt)]
          ring
      by_cases hps : k2 = 0
      · -- all decimal places stripped: integer rendering
        have hnum : numRender m e = (if m < 0 then ['-'] else []) ++ renderNat p1 := by
          simp only [numRender, if_neg hm, if_neg he, ← hp1def, ← hk2def]
          rw [if_pos hps]
        have hval : (p1 : ℚ) = |(m : ℚ)| * 10 ^ e := by
          rw [habsq, hps, Nat.sub_zero, zpow_neg_toNat hel]
          field_simp
        by_cases hlt : m < 0
        · refine ⟨-(p1 : Int), 0, ?_, ?_⟩
          · rw [hnum, if_pos hlt]
            simpa using jsToNumber_renderNat true p1
          · rw [zpow_zero, mul_one, Int.cast_neg, Int.cast_natCast, hval]
            conv_rhs => rw [hmabs]
            rw [if_pos hlt]
            ring
        · refine ⟨(p1 : Int), 0, ?_, ?_⟩
          · rw [hnum, if_neg hlt]
            simpa using jsToNumber_renderNat false p1
          · rw [zpow_zero, mul_one, Int.cast_natCast, hval]
            conv_rhs => rw [hmabs]
            rw [if_neg hlt]
            ring
      · -- fractional rendering
        have hk1 : 1 ≤ k2 := by omega
        have hnum : numRender m e =
            (if m < 0 then ['-'] else []) ++
              (renderNat (p1 / 10 ^ k2) ++ '.' :: padZeros k2 (renderNat (p1 % 10 ^ k2))) := by
          simp only [numRender, if_neg hm, if_neg he, ← hp1def, ← hk2def]
          rw [if_neg hps, List.append_assoc]
        have hrlt : p1 % 10 ^ k2 < 10 ^ k2 := Nat.mod_lt _ (Nat.pos_pow_of_pos k2 (by omega))
        have hMn : (p1 / 10 ^ k2) * 10 ^ k2 + p1 % 10 ^ k2 = p1 := by
          rw [Nat.mul_comm]
          exact Nat.div_add_mod p1 (10 ^ k2)
        have hM : ((p1 / 10 ^ k2 : ℕ) : Int) * 10 ^ k2 + ((p1 % 10 ^ k2 : ℕ) : Int) =
            (p1 : Int) := by
          exact_mod_cast congrArg (Nat.cast : ℕ → ℤ) hMn
        have hval : (p1 : ℚ) * 10 ^ (-(k2 : ℤ)) = |(m : ℚ)| * 10 ^ e := by
          rw [habsq, zpow_neg, zpow_natCast, zpow_neg_toNat hel]
          rw [show (-e).toNat = ((-e).toNat - k2) + k2 from by omega, pow_add]
          field_simp
          ring
        by_cases hlt : m < 0
        · refine ⟨-(p1 : Int), -(k2 : ℤ), ?_, ?_⟩
          · rw [hnum, if_pos hlt]
            have hfr := jsToNumber_renderFrac true (p1 / 10 ^ k2) (p1 % 10 ^ k2) k2 hk1 hrlt
            rw [hM] at hfr
            simpa using hfr
          · rw [Int.cast_neg, Int.cast_natCast, hmabs, if_pos hlt]
            rw [show -(p1 : ℚ) * 10 ^ (-(k2 : ℤ)) = (p1 : ℚ) * 10 ^ (-(k2 : ℤ)) * (-1) from by
              ring, hval]
            ring
        · refine ⟨(p1 : Int), -(k2 : ℤ), ?_, ?_⟩
          · rw [hnum, if_neg hlt]
            have hfr := jsToNumber_renderFrac false (p1 / 10 ^ k2) (p1 % 10 ^ k2) k2 hk1 hrlt
            rw [hM] at hfr
            simpa using hfr
          · rw [Int.cast_natCast, hmabs, if_neg hlt, hval]
            ring

theorem numRender_chars (m e : Int) :
    ∀ c ∈ numRender m e, c = '-' ∨ c = '.' ∨ isDigitChar c = true := by
  intro c hc
  unfold numRender at hc
  by_cases hm : m = 0
  · simp [hm] at hc
    subst hc
    right; right; decide
  · simp only [if_neg hm] at hc
    have hsgn : ∀ x ∈ (if m < 0 then ['-'] else [] : Str), x = '-' := by
      intro x hx
      by_cases hlt : m < 0
      · rw [if_pos hlt] at hx
        simpa using hx
      · rw [if_neg hlt] at hx
        simp at hx
    by_cases he : 0 ≤ e
    · simp only [if_pos he] at hc
      rcases List.mem_append.mp hc with hc | hc
      · exact Or.inl (hsgn c hc)
      · exact Or.inr (Or.inr (renderNat_all_digits _ c hc))
    · simp only [if_neg he] at hc
      by_cases hps : (stripTensAux m.natAbs (-e).toNat).2 = 0
      · rw [if_pos hps] at hc
        rcases List.mem_append.mp hc with hc | hc
        · exact Or.inl (hsgn c hc)
        · exact Or.inr (Or.inr (renderNat_all_digits _ c hc))
      · rw [if_neg hps] at hc
        rcases List.mem_append.mp hc with hc | hc
        · rcases List.mem_append.mp hc with hc | hc
          · exact Or.inl (hsgn c hc)
          · exact Or.inr (Or.inr (renderNat_all_digits _ c hc))
        · rcases List.mem_cons.mp hc with rfl | hc
          · exact Or.inr (Or.inl rfl)
          · exact Or.inr (Or.inr (padZeros_all_digits (renderNat_all_digits _) c hc))

theorem numRender_ne_nil (m e : Int) : numRender m e ≠ [] := by
  unfold numRender
  by_cases hm : m = 0
  · simp [hm]
  · simp only [if_neg hm]
    by_cases he : 0 ≤ e
    · simp only [if_pos he]
      intro h
      rcases List.append_eq_nil.mp h with ⟨_, h2⟩
      exact renderNat_ne_nil _ h2
    · simp only [if_neg he]
      by_cases hps : (stripTensAux m.natAbs (-e).toNat).2 = 0
      · rw [if_pos hps]
        intro h
        rcases List.append_eq_nil.mp h with ⟨_, h2⟩
        exact renderNat_ne_nil _ h2
      · rw [if_neg hps]
        intro h
        rcases List.append_eq_nil.mp h with ⟨h1, _⟩
        rcases List.append_eq_nil.mp h1 with ⟨_, h3⟩
        exact renderNat_ne_nil _ h3

/-- Full normalizer round trip: `parseKoreanNumber` applied to the JS
rendering of the exact number `m * 10 ^ e` succeeds with the same value. -/
theorem parseKoreanNumber_numRender (m e : Int) :
    ∃ M E, parseKoreanNumber (numRender m e) = some (.fin M E) ∧
      (M : ℚ) * 10 ^ E = (m : ℚ) * 10 ^ e := by
  obtain ⟨M, E, h1, h2⟩ := jsToNumber_numRender m e
  refine ⟨M, E, ?_, h2⟩
  have hchars := numRender_chars m e
  have hnc : ∀ c ∈ numRender m e, c ≠ ',' := by
    intro c hc
    rcases hchars c hc with rfl | rfl | h
    · decide
    · decide
    · exact isDigitChar_ne_comma h
  have hnw : ∀ c ∈ numRender m e, jsIsWhitespace c = false := by
    intro c hc
    rcases hchars c hc with rfl | rfl | h
    · decide
    · decide
    · exact isDigitChar_not_ws h
  unfold parseKoreanNumber
  rw [if_neg (numRender_ne_nil m e), stripCommas_eq_self hnc, stripWs_eq_self hnw]
  exact h1

theorem pushLoop_take {α β : Type} (f : α → Option β) (limit : Nat) :
    ∀ (rows : List α) (acc : List β), acc.length < limit →
      pushLoop f limit rows acc = acc ++ ((rows.filterMap f).take (limit - acc.length)) := by
  intro rows
  induction rows with
  | nil => intro acc _; simp [pushLoop]
  | cons r rs ih =>
    intro acc hacc
    unfold pushLoop
    cases hf : f r with
    | none => rw [ih acc hacc, List.filterMap_cons_none hf]
    | some x =>
      simp only [List.filterMap_cons_some hf]
      by_cases hstop : limit ≤ (acc ++ [x]).length
      · rw [if_pos hstop]
        have hlen : limit - acc.length = 1 := by
          simp at hstop
          omega
        rw [hlen]
        simp
      · rw [if_neg hstop]
        have hlt : (acc ++ [x]).length < limit := by omega
        rw [ih (acc ++ [x]) hlt]
        have h1 : limit - acc.length = (limit - (acc ++ [x]).length) + 1 := by
          simp
          omega
        rw [h1, List.take_succ_cons]
        simp

/-- The `.each` loop of the listing extractors collects exactly the
first `limit` qualifying rows, in source order. -/
theorem pushLoop_eq_take {α β : Type} (f : α → Option β) (limit : Nat) (rows : List α)
    (h : 1 ≤ limit) :
    pushLoop f limit rows [] = (rows.filterMap f).take limit := by
  rw [pushLoop_take f limit rows [] (by simpa using h)]
  simp

/-- A row mapped to `none` is invisible to the loop: it contributes no
record and does not advance the limit counter. -/
theorem pushLoop_skip {α β : Type} (f : α → Option β) (limit : Nat) (r : α) (hr : f r = none) :
    ∀ (xs ys : List α) (acc : List β),
      pushLoop f limit (xs ++ r :: ys) acc = pushLoop f limit (xs ++ ys) acc := by
  intro xs
  induction xs with
  | nil =>
    intro ys acc
    simp only [List.nil_append]
    conv_lhs => unfold pushLoop
    rw [hr]
  | cons x xs ih =>
    intro ys acc
    simp only [List.cons_append]
    conv_lhs => unfold pushLoop
    conv_rhs => unfold pushLoop
    cases hf : f x with
    | none => exact ih ys acc
    | some b =>
      by_cases hstop : limit ≤ (acc ++ [b]).length
      · simp only [if_pos hstop]
      · simp only [if_neg hstop]
        exact ih ys (acc ++ [b])

theorem findCodeMatch_spec : ∀ (s : Str) (c : Str), findCodeMatch s = some c →
    c.length = 6 ∧ ∀ ch ∈ c, isDigitChar ch = true := by
  intro s
  induction s with
  | nil => intro c h; simp [findCodeMatch] at h
  | cons a rest ih =>
    intro c h
    unfold findCodeMatch at h
    cases hat : codeAt (a :: rest) with
    | some d =>
      rw [hat] at h
      injection h with h
      subst h
      unfold codeAt at hat
      split at hat
      · rename_i d1 d2 d3 d4 d5 d6 _
        split at hat
        · rename_i hdig
          injection hat with hat
          subst hat
          refine ⟨rfl, ?_⟩
          simpa using List.all_eq_true.mp hdig
        · exact absurd hat (by simp)
      · exact absurd hat (by simp)
    | none =>
      rw [hat] at h
      exact ih c h

theorem dropWhile_append_head {p : α → Bool} (xs : List α) {y : α} (ys : List α)
    (hy : p y = false) :
    (xs ++ y :: ys).dropWhile p = xs.dropWhile p ++ y :: ys := by
  induction xs with
  | nil => simp [List.dropWhile_cons, hy]
  | cons x xs ih =>
    simp only [List.cons_append, List.dropWhile_cons]
    by_cases hx : p x
    · rw [if_pos hx, if_pos hx]
      exact ih
    · rw [if_neg hx, if_neg hx]
      simp

theorem findIdx?_append_head {p : α → Bool} {xs : List α} {y : α} {ys : List α}
    (hxs : ∀ x ∈ xs, p x = false) (hy : p y = true) :
    (xs ++ y :: ys).findIdx? p = some xs.length := by
  rw [List.findIdx?_append, List.findIdx?_eq_none_iff.mpr hxs]
  simp [List.findIdx?_cons, hy]

theorem jsTrim_padded {s : Str} (p q : Str) {u1 u2 : Str}
    (hs1 : s = '{' :: u1) (hs2 : s = u2 ++ ['}']) :
    jsTrim (p ++ s ++ q) =
      p.dropWhile jsIsWhitespace ++ s ++ (q.reverse.dropWhile jsIsWhitespace).reverse := by
  unfold jsTrim
  have h1 : (p ++ s ++ q).dropWhile jsIsWhitespace = p.dropWhile jsIsWhitespace ++ s ++ q := by
    rw [List.append_assoc, hs1, List.cons_append,
      dropWhile_append_head p (u1 ++ q) (by decide), ← List.cons_append, ← hs1,
      ← List.append_assoc]
  rw [h1]
  have h2 : (p.dropWhile jsIsWhitespace ++ s ++ q).reverse =
      q.reverse ++ s.reverse ++ (p.dropWhile jsIsWhitespace).reverse := by
    simp [List.reverse_append]
  rw [h2]
  have hs2r : s.reverse = '}' :: u2.reverse := by
    rw [hs2]
    simp
  have h3 : (q.reverse ++ s.reverse ++ (p.dropWhile jsIsWhitespace).reverse).dropWhile
      jsIsWhitespace =
      q.reverse.dropWhile jsIsWhitespace ++ s.reverse ++
        (p.dropWhile jsIsWhitespace).reverse := by
    rw [List.append_assoc, hs2r, List.cons_append,
      dropWhile_append_head q.reverse (u2.reverse ++ (p.dropWhile jsIsWhitespace).reverse)
        (by decide), ← List.cons_append, ← hs2r, ← List.append_assoc]
  rw [h3]
  simp [List.reverse_append]

/-- Brace-free padding around a well-formed braced region does not
change the extracted JSON slice. -/
theorem extractJsonSlice_padded {s : Str} (p q : Str) {u1 u2 : Str}
    (hp : ∀ c ∈ p, c ≠ '{' ∧ c ≠ '}') (hq : ∀ c ∈ q, c ≠ '{' ∧ c ≠ '}')
    (hs1 : s = '{' :: u1) (hs2 : s = u2 ++ ['}']) :
    extractJsonSlice (p ++ s ++ q) = some s := by
  set p1 := p.dropWhile jsIsWhitespace with hp1
  set q1 := (q.reverse.dropWhile jsIsWhitespace).reverse with hq1
  have hp1m : ∀ c ∈ p1, c ≠ '{' ∧ c ≠ '}' := by
    intro c hc
    exact hp c ((List.dropWhile_sublist _).subset hc)
  have hq1m : ∀ c ∈ q1, c ≠ '{' ∧ c ≠ '}' := by
    intro c hc
    rw [hq1, List.mem_reverse] at hc
    exact hq c (List.mem_reverse.mp ((List.dropWhile_sublist _).subset hc))
  have hslen : 1 ≤ s.length := by
    rw [hs1]
    simp
  unfold extractJsonSlice
  rw [jsTrim_padded p q hs1 hs2, ← hp1, ← hq1]
  have hfirst : firstIdxOf (p1 ++ s ++ q1) '{' = some p1.length := by
    unfold firstIdxOf
    rw [List.append_assoc, hs1, List.cons_append]
    rw [findIdx?_append_head (fun x hx => by simp [(hp1m x hx).1]) (by simp)]
  have hlast : lastIdxOf (p1 ++ s ++ q1) '}' =
      some (p1.length + s.length - 1) := by
    unfold lastIdxOf
    have hrev : (p1 ++ s ++ q1).reverse = q1.reverse ++ '}' :: (u2.reverse ++ p1.reverse) := by
      simp only [List.reverse_append]
      rw [hs2]
      simp [List.reverse_append]
    rw [hrev]
    rw [findIdx?_append_head
      (fun x hx => by simp [(hq1m x (List.mem_reverse.mp hx)).2]) (by simp)]
    simp only [Option.map_some', List.length_reverse, List.length_append]
    congr 1
    omega
  simp only [hfirst, hlast]
  have harith : p1.length + s.length - 1 + 1 - p1.length = s.length := by omega
  rw [harith]
  have hdrop : (p1 ++ s ++ q1).drop p1.length = s ++ q1 := by
    rw [List.append_assoc]
    exact List.drop_left p1 (s ++ q1)
  rw [hdrop, List.take_left]

/-- The unpadded well-formed region extracts to itself. -/
theorem extractJsonSlice_self {s : Str} {u1 u2 : Str}
    (hs1 : s = '{' :: u1) (hs2 : s = u2 ++ ['}']) :
    extractJsonSlice s = some s := by
  have h := extractJsonSlice_padded (s := s) [] [] (by simp) (by simp) hs1 hs2
  simpa using h

theorem firstIdxOf_eq_none_iff {t : Str} {c : Char} : firstIdxOf t c = none ↔ c ∉ t := by
  unfold firstIdxOf
  rw [List.findIdx?_eq_none_iff]
  constructor
  · intro h hm
    have := h _ hm
    simp at this
  · intro h x hx
    simp only [beq_eq_false_iff_ne]
    intro heq
    exact h (heq ▸ hx)

theorem lastIdxOf_eq_none_iff {t : Str} {c : Char} : lastIdxOf t c = none ↔ c ∉ t := by
  unfold lastIdxOf
  rw [Option.map_eq_none', List.findIdx?_eq_none_iff]
  constructor
  · intro h hm
    have := h _ (List.mem_reverse.mpr hm)
    simp at this
  · intro h x hx
    simp only [beq_eq_false_iff_ne]
    intro heq
    exact h (heq ▸ List.mem_reverse.mp hx)

theorem extractJsonSlice_eq_none_iff (t : Str) :
    extractJsonSlice t = none ↔ '{' ∉ jsTrim t ∨ '}' ∉ jsTrim t := by
  unfold extractJsonSlice
  cases o1 : firstIdxOf (jsTrim t) '{' with
  | none =>
    simp only [o1]
    simp
    exact Or.inl (firstIdxOf_eq_none_iff.mp o1)
  | some i =>
    cases o2 : lastIdxOf (jsTrim t) '}' with
    | none =>
      simp only [o1, o2]
      simp
      exact Or.inr (lastIdxOf_eq_none_iff.mp o2)
    | some j =>
      simp only [o1, o2]
      simp
      refine ⟨?_, ?_⟩
      · by_contra h1
        rw [firstIdxOf_eq_none_iff.mpr h1] at o1
        cases o1
      · by_contra h2
        rw [lastIdxOf_eq_none_iff.mpr h2] at o2
        cases o2

theorem etfRawItems_cases (j : JsonValue) :
    (∃ xs, etfRawItems j = .ok xs) ∨ etfRawItems j = .error .typeErr := by
  unfold etfRawItems
  split
  · exact Or.inl ⟨_, rfl⟩
  · exact Or.inl ⟨_, rfl⟩
  · split
    · exact Or.inl ⟨_, rfl⟩
    · exact Or.inl ⟨_, rfl⟩
    · exact Or.inl ⟨_, rfl⟩
    · exact Or.inr rfl

theorem etfProcessJson_cases (limit : Nat) (j : JsonValue) :
    (∃ items, etfProcessJson limit j = .ok items) ∨
    (∃ c, etfProcessJson limit j = .error (.apiError c)) ∨
    etfProcessJson limit j = .error .typeErr := by
  unfold etfProcessJson
  split
  · rename_i s heq
    by_cases hs : s = "success".data
    · rw [if_pos hs]
      rcases etfRawItems_cases j with ⟨xs, hxs⟩ | hxs
      · rw [hxs]
        exact Or.inl ⟨_, rfl⟩
      · rw [hxs]
        exact Or.inr (Or.inr rfl)
    · rw [if_neg hs]
      exact Or.inr (Or.inl ⟨_, rfl⟩)
  · exact Or.inr (Or.inl ⟨_, rfl⟩)

/-- C2: the numeric normalizer `parseKoreanNumber` is a total function
(so it can never throw); empty input gives `null`; any value it returns
comes from JS numeric conversion of the comma- and whitespace-stripped
text; conversion failure (NaN) on the stripped text gives `null`; and on
nonempty all-digit text it returns exactly the digits' value. -/
theorem C2_parseKoreanNumber_normalizer :
    parseKoreanNumber [] = none
    ∧ (∀ t n, parseKoreanNumber t = some n → jsToNumber (stripWs (stripCommas t)) = some n)
    ∧ (∀ t, jsToNumber (stripWs (stripCommas t)) = none → parseKoreanNumber t = none)
    ∧ (∀ ds, ds ≠ [] → (∀ c ∈ ds, isDigitChar c = true) →
        parseKoreanNumber ds = some (.fin (natValOfDigits ds) 0)) := by
  refine ⟨rfl, ?_, ?_, ?_⟩
  · intro t n h
    unfold parseKoreanNumber at h
    by_cases ht : t = []
    · rw [if_pos ht] at h
      cases h
    · rwa [if_neg ht] at h
  · intro t h
    unfold parseKoreanNumber
    by_cases ht : t = []
    · rw [if_pos ht]
    · rw [if_neg ht]
      exact h
  · intro ds h0 hd
    have hb : parseUnsignedDecimal ds = some ((natValOfDigits ds : Int), 0) :=
      parseUnsignedDecimal_digits h0 hd
    obtain ⟨d, t, rfl⟩ := List.exists_cons_of_ne_nil h0
    have hd' : isDigitChar d = true := hd d (List.mem_cons_self _ _)
    have hjs := jsToNumber_sgnBody false hd' (fun c hc => Or.inr (hd c hc)) hb
    simp only [Bool.false_eq_true, if_false, List.nil_append] at hjs
    unfold parseKoreanNumber
    rw [if_neg (List.cons_ne_nil d t),
      stripCommas_eq_self (fun c hc => isDigitChar_ne_comma (hd c hc)),
      stripWs_eq_self (fun c hc => isDigitChar_not_ws (hd c hc))]
    exact hjs

theorem C2_parseKoreanNumber_normalizer_witness :
    parseKoreanNumber ("1234".data) = some (.fin (natValOfDigits ("1234".data)) 0) :=
  C2_parseKoreanNumber_normalizer.2.2.2 ("1234".data) (by decide) (by decide)

/-- C1: for every record built by the extractors, each `MeasuredValue`
satisfies the raw/value invariant.  On the ETF (JSON) path: a present
`value` means the field was a JSON number, `raw` is its exact JS string
rendering, and re-parsing `raw` with the numeric normalizer recovers the
same value; a missing or `null` field leaves `raw` empty; a string field
is stored in `raw` exactly.  On the markup paths, `raw` is exactly the
source cell text and `value` is its `parseKoreanNumber` result, so a
parse failure leaves `raw` untouched.  The record-level conjuncts tie
the fields built by each extractor to these constructions. -/
theorem C1_measuredValue_invariant :
    (∀ (v : Option JsonValue) (n₀ : JsNum), (etfMeasured v).value = some n₀ →
      ∃ n, parseKoreanNumber ((etfMeasured v).raw) = some n ∧ jsNumEquiv n n₀)
    ∧ (etfMeasured none).raw = [] ∧ (etfMeasured (some .null)).raw = []
    ∧ (∀ s, (etfMeasured (some (.str s))).raw = s)
    ∧ (∀ t, (mvOfText t).raw = t ∧ (mvOfText t).value = parseKoreanNumber t)
    ∧ (∀ item, (etfItemToRecord item).currentPrice =
          etfMeasured (item.getField ("nowVal".data)) ∧
        (etfItemToRecord item).nav = etfMeasured (item.getField ("nav".data)) ∧
        (etfItemToRecord item).volume = etfMeasured (item.getField ("quant".data)) ∧
        (etfItemToRecord item).tradingValueMillion =
          etfMeasured (item.getField ("amonut".data)) ∧
        (etfItemToRecord item).marketCapHundredMillion =
          etfMeasured (item.getField ("marketSum".data)))
    ∧ (∀ row r, divRowRecord row = some r →
        r.currentPrice = mvOfText (cellText row 1) ∧ r.dividend = mvOfText (cellText row 3))
    ∧ (∀ row r, mcapRowRecord row = some r →
        r.currentPrice = mvOfText (jsTrim (selText (nthChildOfTag ("td".data) 3 row))))
    ∧ (∀ doc code, (getStockPriceByCode doc code).currentPrice.value =
        parseKoreanNumber ((getStockPriceByCode doc code).currentPrice.raw)) := by
  refine ⟨?_, rfl, rfl, fun s => rfl, fun t => ⟨rfl, rfl⟩, fun item => ⟨rfl, rfl, rfl, rfl, rfl⟩,
    ?_, ?_, fun doc code => rfl⟩
  · intro v n₀ h
    match v with
    | none => simp [etfMeasured] at h
    | some .null => simp [etfMeasured] at h
    | some (.bool b) => simp [etfMeasured] at h
    | some (.str s) => simp [etfMeasured] at h
    | some (.arr xs) => simp [etfMeasured] at h
    | some (.obj fs) => simp [etfMeasured] at h
    | some (.num m e) =>
      simp only [etfMeasured] at h
      injection h with h
      subst h
      obtain ⟨M, E, hp, hv⟩ := parseKoreanNumber_numRender m e
      refine ⟨.fin M E, ?_, hv⟩
      rw [show (etfMeasured (some (.num m e))).raw = numRender m e from rfl]
      exact hp
  · intro row r h
    unfold divRowRecord at h
    dsimp only at h
    split at h
    · cases h
    · injection h with h
      subst h
      exact ⟨rfl, rfl⟩
  · intro row r h
    unfold mcapRowRecord at h
    dsimp only at h
    split at h
    · cases h
    · injection h with h
      subst h
      rfl

theorem C1_measuredValue_invariant_witness :
    ∃ n, parseKoreanNumber ((etfMeasured (some (.num 1234 0))).raw) = some n ∧
      jsNumEquiv n (.fin 1234 0) :=
  C1_measuredValue_invariant.1 (some (.num 1234 0)) (.fin 1234 0) rfl

/-- C3: the envelope extractor fails with the no-JSON extraction error
exactly when the trimmed decoded text lacks a `{` or lacks a `}`; and
wrapping a well-formed `{...}` region (first character `{`, last
character `}`) in arbitrary brace-free prefix/suffix padding leaves the
whole call's result unchanged, because the extracted slice is the same. -/
theorem C3_envelope_slicing_and_padding :
    (∀ decoded limit etfType targetColumn sortOrder,
      getEtfsByMarketCap decoded limit etfType targetColumn sortOrder =
          .error .noJsonFound ↔
        '{' ∉ jsTrim decoded ∨ '}' ∉ jsTrim decoded)
    ∧ (∀ (p s q u1 u2 : Str) limit etfType targetColumn sortOrder,
        (∀ c ∈ p, c ≠ '{' ∧ c ≠ '}') → (∀ c ∈ q, c ≠ '{' ∧ c ≠ '}') →
        s = '{' :: u1 → s = u2 ++ ['}'] →
        getEtfsByMarketCap (p ++ s ++ q) limit etfType targetColumn sortOrder =
          getEtfsByMarketCap s limit etfType targetColumn sortOrder) := by
  constructor
  · intro decoded limit etfType targetColumn sortOrder
    unfold getEtfsByMarketCap
    cases hsl : extractJsonSlice decoded with
    | none =>
      simp only [hsl]
      simp
      exact (extractJsonSlice_eq_none_iff decoded).mp hsl
    | some sl =>
      simp only [hsl]
      have hne : ¬('{' ∉ jsTrim decoded ∨ '}' ∉ jsTrim decoded) := by
        intro hcontra
        rw [(extractJsonSlice_eq_none_iff decoded).mpr hcontra] at hsl
        cases hsl
      cases hjp : jsonParse sl with
      | none =>
        simp only [hjp]
        simp [hne]
      | some j =>
        simp only [hjp]
        rcases etfProcessJson_cases limit j with ⟨items, hpj⟩ | ⟨c, hpj⟩ | hpj <;>
          rw [hpj] <;> simp [Except.map, hne]
  · intro p s q u1 u2 limit etfType targetColumn sortOrder hp hq hs1 hs2
    unfold getEtfsByMarketCap
    rw [extractJsonSlice_padded p q hp hq hs1 hs2, extractJsonSlice_self hs1 hs2]

theorem C3_envelope_slicing_and_padding_witness :
    getEtfsByMarketCap (("etfCb(".data ++ ("\x7b\"resultCode\":\"x\"\x7d".data) ++ ");".data)) 5 0
        ("acc_amount".data) ("desc".data) =
      getEtfsByMarketCap ("\x7b\"resultCode\":\"x\"\x7d".data) 5 0 ("acc_amount".data)
        ("desc".data) :=
  C3_envelope_slicing_and_padding.2 ("etfCb(".data) ("\x7b\"resultCode\":\"x\"\x7d".data)
    (");".data) ("\"resultCode\":\"x\"\x7d".data) ("\x7b\"resultCode\":\"x\"".data) 5 0
    ("acc_amount".data) ("desc".data) (by decide) (by decide) (by decide) (by decide)

/-- C4: when the parsed envelope's `resultCode` is not the string
`success`, the status check fails with the extraction error carrying the
provider's (stringified, `unknown` when falsy or missing) code, and the
call can never return an item list; the same holds through the full
decoded-text pipeline. -/
theorem C4_provider_failure_is_error :
    (∀ limit (j : JsonValue),
      (∀ s, j.getField ("resultCode".data) = some (.str s) → s ≠ "success".data) →
      etfProcessJson limit j =
          .error (.apiError (etfErrorCode (j.getField ("resultCode".data)))) ∧
        ∀ items, etfProcessJson limit j ≠ .ok items)
    ∧ (∀ decoded limit etfType targetColumn sortOrder sl (j : JsonValue),
        extractJsonSlice decoded = some sl → jsonParse sl = some j →
        (∀ s, j.getField ("resultCode".data) = some (.str s) → s ≠ "success".data) →
        getEtfsByMarketCap decoded limit etfType targetColumn sortOrder =
            .error (.apiError (etfErrorCode (j.getField ("resultCode".data)))) ∧
          ∀ env, getEtfsByMarketCap decoded limit etfType targetColumn sortOrder ≠
            .ok env) := by
  have main : ∀ limit (j : JsonValue),
      (∀ s, j.getField ("resultCode".data) = some (.str s) → s ≠ "success".data) →
      etfProcessJson limit j =
        .error (.apiError (etfErrorCode (j.getField ("resultCode".data)))) := by
    intro limit j hne
    unfold etfProcessJson
    split
    · rename_i s heq
      rw [if_neg (hne s heq), heq]
    · rename_i heq
      rfl
  constructor
  · intro limit j hne
    refine ⟨main limit j hne, ?_⟩
    intro items hok
    rw [main limit j hne] at hok
    cases hok
  · intro decoded limit etfType targetColumn sortOrder sl j h1 h2 hne
    have hres : getEtfsByMarketCap decoded limit etfType targetColumn sortOrder =
        .error (.apiError (etfErrorCode (j.getField ("resultCode".data)))) := by
      unfold getEtfsByMarketCap
      simp only [h1, h2, main limit j hne]
      rfl
    refine ⟨hres, ?_⟩
    intro env hok
    rw [hres] at hok
    cases hok

theorem C4_provider_failure_is_error_witness :
    getEtfsByMarketCap ("\x7b\"resultCode\":\"fail\"\x7d".data) 5 0 ("market_sum".data)
        ("desc".data) =
      .error (.apiError (etfErrorCode ((JsonValue.obj
        [("resultCode".data, .str ("fail".data))]).getField ("resultCode".data)))) ∧
    ∀ env, getEtfsByMarketCap ("\x7b\"resultCode\":\"fail\"\x7d".data) 5 0 ("market_sum".data)
        ("desc".data) ≠ .ok env :=
  C4_provider_failure_is_error.2 ("\x7b\"resultCode\":\"fail\"\x7d".data) 5 0 ("market_sum".data)
    ("desc".data) ("\x7b\"resultCode\":\"fail\"\x7d".data)
    (.obj [("resultCode".data, .str ("fail".data))]) (by rfl) (by rfl)
    (fun s hs => by
      rw [show (JsonValue.obj [("resultCode".data, .str ("fail".data))]).getField
        ("resultCode".data) = some (.str ("fail".data)) from rfl] at hs
      injection hs with hs
      injection hs with hs
      rw [← hs]
      decide)

theorem etfMeasured_value_isSome (v : Option JsonValue) :
    ((etfMeasured v).value).isSome = true ↔ ∃ m e, v = some (.num m e) := by
  match v with
  | none => simp [etfMeasured]
  | some .null => simp [etfMeasured]
  | some (.bool b) => simp [etfMeasured]
  | some (.str s) => simp [etfMeasured]
  | some (.arr xs) => simp [etfMeasured]
  | some (.obj fs) => simp [etfMeasured]
  | some (.num m e) => simp [etfMeasured]

/-- C9: in the ETF extractor each of the five `MeasuredValue` fields has
a present `value` exactly when the corresponding provider JSON field is
of numeric type; a numeric *string* field is stored in `raw` as-is with
`value` absent — the numeric normalizer is not applied on this path. -/
theorem C9_etf_value_iff_numeric (item : JsonValue) :
    ((((etfItemToRecord item).currentPrice.value).isSome = true ↔
        ∃ m e, item.getField ("nowVal".data) = some (.num m e))
      ∧ (((etfItemToRecord item).nav.value).isSome = true ↔
        ∃ m e, item.getField ("nav".data) = some (.num m e))
      ∧ (((etfItemToRecord item).volume.value).isSome = true ↔
        ∃ m e, item.getField ("quant".data) = some (.num m e))
      ∧ (((etfItemToRecord item).tradingValueMillion.value).isSome = true ↔
        ∃ m e, item.getField ("amonut".data) = some (.num m e))
      ∧ (((etfItemToRecord item).marketCapHundredMillion.value).isSome = true ↔
        ∃ m e, item.getField ("marketSum".data) = some (.num m e)))
    ∧ (∀ s, item.getField ("nowVal".data) = some (.str s) →
        (etfItemToRecord item).currentPrice.value = none ∧
        (etfItemToRecord item).currentPrice.raw = s) := by
  refine ⟨⟨etfMeasured_value_isSome _, etfMeasured_value_isSome _, etfMeasured_value_isSome _,
    etfMeasured_value_isSome _, etfMeasured_value_isSome _⟩, ?_⟩
  intro s hs
  have : (etfItemToRecord item).currentPrice = etfMeasured (some (.str s)) := by
    rw [show (etfItemToRecord item).currentPrice =
      etfMeasured (item.getField ("nowVal".data)) from rfl, hs]
  rw [this]
  exact ⟨rfl, rfl⟩

theorem C9_etf_value_iff_numeric_witness :
    ((etfItemToRecord (.obj [("nowVal".data, .str ("1234".data))])).currentPrice.value = none ∧
      (etfItemToRecord (.obj [("nowVal".data, .str ("1234".data))])).currentPrice.raw =
        "1234".data) ∧
    parseKoreanNumber ("1234".data) = some (.fin 1234 0) :=
  ⟨(C9_etf_value_iff_numeric (.obj [("nowVal".data, .str ("1234".data))])).2
    ("1234".data) rfl, by decide⟩

/-- C10: a successful status whose result payload is missing, `null`, or
lacking the `etfItemList` field yields a normal envelope with the
request URL and no items, not a failure. -/
theorem C10_missing_list_is_empty :
    (∀ limit (j : JsonValue),
      j.getField ("resultCode".data) = some (.str ("success".data)) →
      (j.getField ("result".data) = none ∨ j.getField ("result".data) = some .null ∨
        (∃ r, j.getField ("result".data) = some r ∧
          (r.getField ("etfItemList".data) = none ∨
            r.getField ("etfItemList".data) = some .null))) →
      etfProcessJson limit j = .ok [])
    ∧ (∀ decoded limit etfType targetColumn sortOrder sl (j : JsonValue),
        extractJsonSlice decoded = some sl → jsonParse sl = some j →
        j.getField ("resultCode".data) = some (.str ("success".data)) →
        (j.getField ("result".data) = none ∨ j.getField ("result".data) = some .null ∨
          (∃ r, j.getField ("result".data) = some r ∧
            (r.getField ("etfItemList".data) = none ∨
              r.getField ("etfItemList".data) = some .null))) →
        getEtfsByMarketCap decoded limit etfType targetColumn sortOrder =
          .ok { url := etfUrl etfType targetColumn sortOrder, items := [] }) := by
  have hraw : ∀ (j : JsonValue),
      (j.getField ("result".data) = none ∨ j.getField ("result".data) = some .null ∨
        (∃ r, j.getField ("result".data) = some r ∧
          (r.getField ("etfItemList".data) = none ∨
            r.getField ("etfItemList".data) = some .null))) →
      etfRawItems j = .ok [] := by
    intro j hmiss
    unfold etfRawItems
    rcases hmiss with h | h | ⟨r, hr, hlist⟩
    · rw [h]
    · rw [h]
    · rw [hr]
      match r with
      | .null => rfl
      | .bool b => rcases hlist with h | h <;> simp only [h]
      | .num m e => rcases hlist with h | h <;> simp only [h]
      | .str s => rcases hlist with h | h <;> simp only [h]
      | .arr xs => rcases hlist with h | h <;> simp only [h]
      | .obj fs => rcases hlist with h | h <;> simp only [h]
  have main : ∀ limit (j : JsonValue),
      j.getField ("resultCode".data) = some (.str ("success".data)) →
      (j.getField ("result".data) = none ∨ j.getField ("result".data) = some .null ∨
        (∃ r, j.getField ("result".data) = some r ∧
          (r.getField ("etfItemList".data) = none ∨
            r.getField ("etfItemList".data) = some .null))) →
      etfProcessJson limit j = .ok [] := by
    intro limit j hrc hmiss
    unfold etfProcessJson
    rw [hrc]
    dsimp only
    rw [if_pos rfl, hraw j hmiss]
    simp [Except.map]
  refine ⟨main, ?_⟩
  intro decoded limit etfType targetColumn sortOrder sl j h1 h2 hrc hmiss
  unfold getEtfsByMarketCap
  simp only [h1, h2, main limit j hrc hmiss]
  rfl

theorem C10_missing_list_is_empty_witness :
    getEtfsByMarketCap ("\x7b\"resultCode\":\"success\"\x7d".data) 7 0 ("market_sum".data)
        ("asc".data) =
      .ok { url := etfUrl 0 ("market_sum".data) ("asc".data), items := [] } :=
  C10_missing_list_is_empty.2 ("\x7b\"resultCode\":\"success\"\x7d".data) 7 0
    ("market_sum".data) ("asc".data) ("\x7b\"resultCode\":\"success\"\x7d".data)
    (.obj [("resultCode".data, .str ("success".data))]) (by rfl) (by rfl) (by rfl)
    (Or.inl (by rfl))

/-- C6: for a positive `limit`, every listing extractor returns exactly
the first `limit` qualifying rows in source document order (expressed as
take-of-filterMap over the selected rows, or take-of-map over the
provider's item list for the fund extractor), so the item count never
exceeds `limit`. -/
theorem C6_limit_truncation (limit : Nat) (hl : 1 ≤ limit) :
    (∀ doc page, (getDividendYieldStocks doc page limit).items =
        ((tableRows ["tb_ty".data] doc).filterMap divRowRecord).take limit ∧
      ((getDividendYieldStocks doc page limit).items).length ≤ limit)
    ∧ (∀ doc sosok page, (getMarketCapStocks doc sosok page limit).items =
        ((tableRows ["type_2".data] doc).filterMap mcapRowRecord).take limit ∧
      ((getMarketCapStocks doc sosok page limit).items).length ≤ limit)
    ∧ (∀ doc, (getThemesWithLeaders doc limit).items =
        ((tableRows [] doc).filterMap themeRowRecord).take limit ∧
      ((getThemesWithLeaders doc limit).items).length ≤ limit)
    ∧ (∀ (j : JsonValue) items, etfProcessJson limit j = .ok items →
        (∃ xs, etfRawItems j = .ok xs ∧ items = (xs.take limit).map etfItemToRecord) ∧
        items.length ≤ limit) := by
  refine ⟨?_, ?_, ?_, ?_⟩
  · intro doc page
    have h := pushLoop_eq_take divRowRecord limit (tableRows ["tb_ty".data] doc) hl
    refine ⟨h, ?_⟩
    rw [show (getDividendYieldStocks doc page limit).items =
      pushLoop divRowRecord limit (tableRows ["tb_ty".data] doc) [] from rfl, h]
    exact List.length_take_le _ _
  · intro doc sosok page
    have h := pushLoop_eq_take mcapRowRecord limit (tableRows ["type_2".data] doc) hl
    refine ⟨h, ?_⟩
    rw [show (getMarketCapStocks doc sosok page limit).items =
      pushLoop mcapRowRecord limit (tableRows ["type_2".data] doc) [] from rfl, h]
    exact List.length_take_le _ _
  · intro doc
    have h := pushLoop_eq_take themeRowRecord limit (tableRows [] doc) hl
    refine ⟨h, ?_⟩
    rw [show (getThemesWithLeaders doc limit).items =
      pushLoop themeRowRecord limit (tableRows [] doc) [] from rfl, h]
    exact List.length_take_le _ _
  · intro j items h
    unfold etfProcessJson at h
    split at h
    · rename_i s heq
      split at h
      · cases hxs : etfRawItems j with
        | ok xs =>
          rw [hxs] at h
          injection h with h
          subst h
          refine ⟨⟨xs, rfl, rfl⟩, ?_⟩
          rw [List.length_map]
          exact List.length_take_le _ _
        | error e =>
          rw [hxs] at h
          cases h
      · cases h
    · cases h

/-- Fixture: a well-formed dividend/search row. -/
def fixtureDivRow : HNode :=
  .elem ("tr".data) []
    [.elem ("td".data) [("class".data, "txt frst".data)]
      [.elem ("a".data) [("href".data, "/item/main.naver?code=005930".data)]
        [.text ("삼성전자".data)]],
     .elem ("td".data) [] [.text ("70,000".data)],
     .elem ("td".data) [] [.text ("25.03".data)],
     .elem ("td".data) [] [.text ("1,500".data)],
     .elem ("td".data) [] [.text ("2.14".data)],
     .elem ("td".data) [] [.text ("30.1".data)]]

/-- Fixture: a spacer row whose name cell holds only the full-width
blank `　`. -/
def fixtureBlankRow : HNode :=
  .elem ("tr".data) []
    [.elem ("td".data) [("class".data, "txt frst".data)]
      [.elem ("a".data) [] [.text ("　".data)]]]

/-- Fixture: a row whose anchor target has six consecutive digits but no
`code=` prefix. -/
def fixtureNoCodeRow : HNode :=
  .elem ("tr".data) []
    [.elem ("td".data) [("class".data, "txt frst".data)]
      [.elem ("a".data) [("href".data, "/item/main.naver?stock=123456".data)]
        [.text ("XY".data)]],
     .elem ("td".data) [] [.text ("1,000".data)]]

/-- Fixture: a dividend listing document. -/
def fixtureDivDoc : HNode :=
  .elem ("html".data) []
    [.elem ("table".data) [("class".data, "type_1 tb_ty".data)]
      [.elem ("tbody".data) [] [fixtureBlankRow, fixtureDivRow, fixtureDivRow]]]

/-- Fixture: a document with no anchors and no code pattern. -/
def fixtureEmptyDoc : HNode := .elem ("html".data) [] [.text ("no results".data)]

theorem C6_limit_truncation_witness :
    (getDividendYieldStocks fixtureDivDoc 1 1).items =
      ((tableRows ["tb_ty".data] fixtureDivDoc).filterMap divRowRecord).take 1 ∧
    ((getDividendYieldStocks fixtureDivDoc 1 1).items).length ≤ 1 :=
  (C6_limit_truncation 1 (by decide)).1 fixtureDivDoc 1

/-- C7: in every table-based listing extractor (dividend, market-cap,
theme), a row whose trimmed primary name text is empty (as with the
full-width blank placeholder) maps to no record, and inserting such a
row anywhere among the selected rows leaves the extracted item list
unchanged — it neither appears in the items nor consumes a limit slot.
The final conjuncts tie each loop to its extractor's item list. -/
theorem C7_blank_row_skipped :
    (∀ row, jsTrim (optText (divNameAnchor row)) = [] → divRowRecord row = none)
    ∧ (∀ row, jsTrim (optText (mcapNameAnchor row)) = [] → mcapRowRecord row = none)
    ∧ (∀ row, jsTrim (optText (themeNameAnchor row)) = [] → themeRowRecord row = none)
    ∧ (∀ limit (rows1 rows2 : List HNode) row,
        jsTrim (optText (divNameAnchor row)) = [] →
        pushLoop divRowRecord limit (rows1 ++ row :: rows2) [] =
          pushLoop divRowRecord limit (rows1 ++ rows2) [])
    ∧ (∀ limit (rows1 rows2 : List HNode) row,
        jsTrim (optText (mcapNameAnchor row)) = [] →
        pushLoop mcapRowRecord limit (rows1 ++ row :: rows2) [] =
          pushLoop mcapRowRecord limit (rows1 ++ rows2) [])
    ∧ (∀ limit (rows1 rows2 : List HNode) row,
        jsTrim (optText (themeNameAnchor row)) = [] →
        pushLoop themeRowRecord limit (rows1 ++ row :: rows2) [] =
          pushLoop themeRowRecord limit (rows1 ++ rows2) [])
    ∧ (∀ doc page limit, (getDividendYieldStocks doc page limit).items =
        pushLoop divRowRecord limit (tableRows ["tb_ty".data] doc) [])
    ∧ (∀ doc sosok page limit, (getMarketCapStocks doc sosok page limit).items =
        pushLoop mcapRowRecord limit (tableRows ["type_2".data] doc) [])
    ∧ (∀ doc limit, (getThemesWithLeaders doc limit).items =
        pushLoop themeRowRecord limit (tableRows [] doc) []) := by
  have hskipD : ∀ row, jsTrim (optText (divNameAnchor row)) = [] →
      divRowRecord row = none := by
    intro row h
    unfold divRowRecord
    dsimp only
    rw [if_pos h]
  have hskipM : ∀ row, jsTrim (optText (mcapNameAnchor row)) = [] →
      mcapRowRecord row = none := by
    intro row h
    unfold mcapRowRecord
    dsimp only
    rw [if_pos h]
  have hskipT : ∀ row, jsTrim (optText (themeNameAnchor row)) = [] →
      themeRowRecord row = none := by
    intro row h
    unfold themeRowRecord
    dsimp only
    rw [if_pos h]
  refine ⟨hskipD, hskipM, hskipT, ?_, ?_, ?_,
    fun doc page limit => rfl, fun doc sosok page limit => rfl, fun doc limit => rfl⟩
  · intro limit rows1 rows2 row h
    exact pushLoop_skip divRowRecord limit row (hskipD row h) rows1 rows2 []
  · intro limit rows1 rows2 row h
    exact pushLoop_skip mcapRowRecord limit row (hskipM row h) rows1 rows2 []
  · intro limit rows1 rows2 row h
    exact pushLoop_skip themeRowRecord limit row (hskipT row h) rows1 rows2 []

theorem C7_blank_row_skipped_witness :
    divRowRecord fixtureBlankRow = none ∧
    mcapRowRecord fixtureBlankRow = none ∧
    themeRowRecord fixtureBlankRow = none ∧
    pushLoop divRowRecord 1 ([fixtureBlankRow] ++ fixtureBlankRow :: [fixtureDivRow]) [] =
      pushLoop divRowRecord 1 ([fixtureBlankRow] ++ [fixtureDivRow]) [] :=
  ⟨C7_blank_row_skipped.1 fixtureBlankRow (by decide),
   C7_blank_row_skipped.2.1 fixtureBlankRow (by decide),
   C7_blank_row_skipped.2.2.1 fixtureBlankRow (by decide),
   C7_blank_row_skipped.2.2.2.1 1 [fixtureBlankRow] [fixtureDivRow] fixtureBlankRow
     (by decide)⟩

/-- C5: the name-to-code search follows the three-stage fallback chain.
Stage 1: if the first item-detail anchor's link target matches the
`code=` six-digit pattern, the outcome is that anchor's trimmed text
(falling back to the query when empty) with the captured six-digit code.
Stage 2: otherwise, if the pattern matches anywhere in the serialized
markup, the outcome carries that code with the page-title name, falling
back to the query.  Stage 3: if both stages fail, the outcome is the
data-level not-found value with a fixed non-empty message — no
exception (the embedding is a total function). -/
theorem C5_search_fallback_chain (doc : HNode) (query : Str) :
    (∀ c, findCodeMatch (attrOrEmpty (searchAnchor doc) ("href".data)) = some c →
      c.length = 6 ∧ (∀ ch ∈ c, isDigitChar ch = true) ∧
      (searchStockCodeByName doc query).result =
        some ((if jsTrim (optText (searchAnchor doc)) = [] then query
          else jsTrim (optText (searchAnchor doc))), c) ∧
      (searchStockCodeByName doc query).message = none)
    ∧ (findCodeMatch (attrOrEmpty (searchAnchor doc) ("href".data)) = none →
      ∀ c, findCodeMatch (renderNode doc) = some c →
      c.length = 6 ∧ (∀ ch ∈ c, isDigitChar ch = true) ∧
      (searchStockCodeByName doc query).result =
        some ((if searchTitleName doc = [] then query else searchTitleName doc), c) ∧
      (searchStockCodeByName doc query).message = none)
    ∧ (findCodeMatch (attrOrEmpty (searchAnchor doc) ("href".data)) = none →
      findCodeMatch (renderNode doc) = none →
      (searchStockCodeByName doc query).result = none ∧
      (searchStockCodeByName doc query).message = some notFoundMsg ∧
      notFoundMsg ≠ []) := by
  refine ⟨?_, ?_, ?_⟩
  · intro c h
    obtain ⟨hlen, hdig⟩ := findCodeMatch_spec _ c h
    refine ⟨hlen, hdig, ?_, ?_⟩ <;>
      simp [searchStockCodeByName, h]
  · intro h1 c h2
    obtain ⟨hlen, hdig⟩ := findCodeMatch_spec _ c h2
    refine ⟨hlen, hdig, ?_, ?_⟩ <;>
      simp [searchStockCodeByName, h1, h2]
  · intro h1 h2
    refine ⟨?_, ?_, by decide⟩ <;>
      simp [searchStockCodeByName, h1, h2]

theorem C5_search_fallback_chain_witness :
    (searchStockCodeByName fixtureEmptyDoc ("조회할수없는종목".data)).result = none ∧
    (searchStockCodeByName fixtureEmptyDoc ("조회할수없는종목".data)).message =
      some notFoundMsg ∧
    notFoundMsg ≠ [] :=
  (C5_search_fallback_chain fixtureEmptyDoc ("조회할수없는종목".data)).2.2
    (by decide) (by decide)

/-- Modelled from the claim's wording for comparison: a run of six
consecutive digits starting at the present position. -/
def sixDigitsAt (s : Str) : Option Str :=
  let t := s.take 6
  if t.length = 6 && t.all isDigitChar then some t else none

/-- Modelled from the claim's wording for comparison: the first run of
six consecutive digits anywhere in the link target, with no requirement
of a preceding `code=`. -/
def findSixDigitRun : Str → Option Str
  | [] => none
  | c :: rest =>
    match sixDigitsAt (c :: rest) with
    | some d => some d
    | none => findSixDigitRun rest

/-- C8 counterexample: a row whose anchor link target contains six
consecutive digits (`stock=123456`) but no `code=` pattern.  The row is
extracted (the claim's "call still succeeds") yet its code is absent,
so the code is not derived by matching six consecutive digits inside
the link target: the actual pattern requires the literal `code=`. -/
theorem C8_counterexample :
    findSixDigitRun (attrOrEmpty (divNameAnchor fixtureNoCodeRow) ("href".data)) =
      some ("123456".data) ∧
    ((divRowRecord fixtureNoCodeRow).map (fun r => r.code)) = some none := by
  decide

/-- C8 amended: in the market-cap and dividend extractors the stock code
of each extracted row is the first match of the literal `code=` followed
by six digits inside the name anchor's link target (the captured six
digits); when that pattern has no match the code is absent and the row
record is still produced — a qualifying row (nonempty trimmed name)
always yields a record, so absence of the pattern is never an error. -/
theorem C8_code_extraction :
    (∀ row r, divRowRecord row = some r →
      r.code = findCodeMatch (attrOrEmpty (divNameAnchor row) ("href".data)) ∧
      (findCodeMatch (attrOrEmpty (divNameAnchor row) ("href".data)) = none →
        r.code = none) ∧
      (∀ c, r.code = some c → c.length = 6 ∧ ∀ ch ∈ c, isDigitChar ch = true))
    ∧ (∀ row r, mcapRowRecord row = some r →
      r.code = findCodeMatch (attrOrEmpty (mcapNameAnchor row) ("href".data)) ∧
      (findCodeMatch (attrOrEmpty (mcapNameAnchor row) ("href".data)) = none →
        r.code = none) ∧
      (∀ c, r.code = some c → c.length = 6 ∧ ∀ ch ∈ c, isDigitChar ch = true))
    ∧ (∀ row, jsTrim (optText (divNameAnchor row)) ≠ [] →
        ∃ r, divRowRecord row = some r)
    ∧ (∀ row, jsTrim (optText (mcapNameAnchor row)) ≠ [] →
        ∃ r, mcapRowRecord row = some r) := by
  refine ⟨?_, ?_, ?_, ?_⟩
  · intro row r h
    unfold divRowRecord at h
    dsimp only at h
    split at h
    · cases h
    · injection h with h
      subst h
      refine ⟨rfl, fun hm => hm, ?_⟩
      intro c hc
      exact findCodeMatch_spec _ c hc
  · intro row r h
    unfold mcapRowRecord at h
    dsimp only at h
    split at h
    · cases h
    · injection h with h
      subst h
      refine ⟨rfl, fun hm => hm, ?_⟩
      intro c hc
      exact findCodeMatch_spec _ c hc
  · intro row h
    unfold divRowRecord
    dsimp only
    rw [if_neg h]
    exact ⟨_, rfl⟩
  · intro row h
    unfold mcapRowRecord
    dsimp only
    rw [if_neg h]
    exact ⟨_, rfl⟩

theorem C8_code_extraction_witness :
    ∃ r, divRowRecord fixtureNoCodeRow = some r :=
  C8_code_extraction.2.2.1 fixtureNoCodeRow (by decide)
